import Mathlib

/-!
A shallow embedding of `jsonpp.go`, the JSON pretty printer.

The program splits its input into units (one per line, or the whole stream with
the newline bytes removed), hands each unit to `json.Indent`, writes the
indented bytes to standard output and reports malformed units on standard
error.  Bytes are natural numbers (their numeric value), Go strings and byte
slices are lists of bytes, and the effects on the standard streams are recorded
in an explicit `World` value that is threaded through the functions.
-/

namespace Jsonpp

/-- A byte, as its numeric value. -/
abbrev Byte := Nat

/-- The bytes of an ASCII string literal. -/
def str (s : String) : List Byte := s.toList.map Char.toNat

/-! ## `encoding/json`: the scanner behind `json.Indent`

The program calls `json.Indent` of Go's standard library, which is not part of
the repository.  The spec asks of it that it validates structurally, reports a
byte offset for syntax errors, and keeps key order and scalars unchanged.  The
definitions of this section and the next follow the library's `scanner.go` and
`indent.go`. -/

/-- Modelled from the spec: `encoding/json` is not under src/.  Values returned by the scanner's state transition functions. -/
inductive ScanCode where
  | scanContinue
  | scanBeginLiteral
  | scanBeginObject
  | scanObjectKey
  | scanObjectValue
  | scanEndObject
  | scanBeginArray
  | scanArrayValue
  | scanEndArray
  | scanSkipSpace
  | scanEnd
  | scanError
  deriving DecidableEq, Repr

/-- Modelled from the spec: `encoding/json` is not under src/.  Entries of the scanner's parse-state stack. -/
inductive ParseState where
  | parseObjectKey
  | parseObjectValue
  | parseArrayValue
  deriving DecidableEq, Repr

/-- Modelled from the spec: `encoding/json` is not under src/.  The scanner's current transition function (`scanner.step`), by name. -/
inductive StepFn where
  | stateBeginValueOrEmpty
  | stateBeginValue
  | stateBeginStringOrEmpty
  | stateBeginString
  | stateEndValue
  | stateEndTop
  | stateInString
  | stateInStringEsc
  | stateInStringEscU
  | stateInStringEscU1
  | stateInStringEscU12
  | stateInStringEscU123
  | stateNeg
  | state1
  | state0
  | stateDot
  | stateDot0
  | stateE
  | stateESign
  | stateE0
  | stateT
  | stateTr
  | stateTru
  | stateF
  | stateFa
  | stateFal
  | stateFals
  | stateN
  | stateNu
  | stateNul
  | stateError
  deriving DecidableEq, Repr

/-- Modelled from the spec: `encoding/json` is not under src/.  A `json.SyntaxError`.  Go builds the message as
`"invalid character " + quoteChar(c) + " " + context`; the parts are kept
apart here (`char = none` for the end-of-input message). -/
structure SyntaxError where
  char : Option Byte
  context : String
  Offset : Int
  deriving DecidableEq, Repr

/-- Modelled from the spec: `encoding/json` is not under src/.  The scanner state.  The parse-state stack has its top at the head. -/
structure scanner where
  step : StepFn
  endTop : Bool
  parseState : List ParseState
  err : Option SyntaxError
  bytes : Nat
  deriving DecidableEq, Repr

/-- Modelled from the spec: `encoding/json` is not under src/.  Nesting depth beyond which the scanner reports an error. -/
def maxNestingDepth : Nat := 10000

/-- Modelled from the spec: `encoding/json` is not under src/.  The method `scanner.reset`. -/
def scanner.reset : scanner :=
  { step := .stateBeginValue, endTop := false, parseState := [], err := none, bytes := 0 }

/-- Modelled from the spec: `encoding/json` is not under src/.  The method `scanner.error`: record a syntax error and kill the scanner. -/
def scanner.error (s : scanner) (c : Byte) (context : String) : ScanCode × scanner :=
  (.scanError,
    { s with step := .stateError,
             err := some { char := some c, context := context, Offset := s.bytes } })

/-- Modelled from the spec: `encoding/json` is not under src/.  The function `isSpace`. -/
def isSpace (c : Byte) : Bool :=
  c ≤ 32 && (c == 32 || c == 9 || c == 13 || c == 10)

/-- Modelled from the spec: `encoding/json` is not under src/.  The method `scanner.pushParseState`. -/
def scanner.pushParseState (s : scanner) (c : Byte) (newParseState : ParseState)
    (successState : ScanCode) : ScanCode × scanner :=
  let s := { s with parseState := newParseState :: s.parseState }
  if s.parseState.length ≤ maxNestingDepth then (successState, s)
  else s.error c "exceeded max depth"

/-- Modelled from the spec: `encoding/json` is not under src/.  The method `scanner.popParseState`. -/
def scanner.popParseState (s : scanner) : scanner :=
  let ps := s.parseState.tail
  if ps.length = 0 then { s with parseState := ps, step := .stateEndTop, endTop := true }
  else { s with parseState := ps, step := .stateEndValue }

/-- Modelled from the spec: `encoding/json` is not under src/.  The state after a top-level value: only space may follow.  The return
value is `scanEnd` also when an error is recorded. -/
def stateEndTop (s : scanner) (c : Byte) : ScanCode × scanner :=
  if !isSpace c then (.scanEnd, (s.error c "after top-level value").2)
  else (.scanEnd, s)

/-- Modelled from the spec: `encoding/json` is not under src/.  The state after completing a value. -/
def stateEndValue (s : scanner) (c : Byte) : ScanCode × scanner :=
  match s.parseState with
  | [] => stateEndTop { s with step := .stateEndTop, endTop := true } c
  | ps :: rest =>
    if isSpace c then (.scanSkipSpace, { s with step := .stateEndValue })
    else match ps with
      | .parseObjectKey =>
        if c = 58 then
          (.scanObjectKey, { s with parseState := .parseObjectValue :: rest, step := .stateBeginValue })
        else s.error c "after object key"
      | .parseObjectValue =>
        if c = 44 then
          (.scanObjectValue, { s with parseState := .parseObjectKey :: rest, step := .stateBeginString })
        else if c = 125 then (.scanEndObject, s.popParseState)
        else s.error c "after object key:value pair"
      | .parseArrayValue =>
        if c = 44 then (.scanArrayValue, { s with step := .stateBeginValue })
        else if c = 93 then (.scanEndArray, s.popParseState)
        else s.error c "after array element"

/-- Modelled from the spec: `encoding/json` is not under src/.  The state at the beginning of the input and after `:` or `,` in an array. -/
def stateBeginValue (s : scanner) (c : Byte) : ScanCode × scanner :=
  if isSpace c then (.scanSkipSpace, s)
  else match c with
    | 123 =>
      ({ s with step := .stateBeginStringOrEmpty }).pushParseState c .parseObjectKey
        .scanBeginObject
    | 91 =>
      ({ s with step := .stateBeginValueOrEmpty }).pushParseState c .parseArrayValue
        .scanBeginArray
    | 34 => (.scanBeginLiteral, { s with step := .stateInString })
    | 45 => (.scanBeginLiteral, { s with step := .stateNeg })
    | 48 => (.scanBeginLiteral, { s with step := .state0 })
    | 116 => (.scanBeginLiteral, { s with step := .stateT })
    | 102 => (.scanBeginLiteral, { s with step := .stateF })
    | 110 => (.scanBeginLiteral, { s with step := .stateN })
    | _ =>
      if 49 ≤ c ∧ c ≤ 57 then (.scanBeginLiteral, { s with step := .state1 })
      else s.error c "looking for beginning of value"

/-- Modelled from the spec: `encoding/json` is not under src/.  The state after reading `[`. -/
def stateBeginValueOrEmpty (s : scanner) (c : Byte) : ScanCode × scanner :=
  if isSpace c then (.scanSkipSpace, s)
  else if c = 93 then stateEndValue s c
  else stateBeginValue s c

/-- Modelled from the spec: `encoding/json` is not under src/.  The state after reading `{"key": value,`. -/
def stateBeginString (s : scanner) (c : Byte) : ScanCode × scanner :=
  if isSpace c then (.scanSkipSpace, s)
  else if c = 34 then (.scanBeginLiteral, { s with step := .stateInString })
  else s.error c "looking for beginning of object key string"

/-- Modelled from the spec: `encoding/json` is not under src/.  The state after reading `{`. -/
def stateBeginStringOrEmpty (s : scanner) (c : Byte) : ScanCode × scanner :=
  if isSpace c then (.scanSkipSpace, s)
  else if c = 125 then
    stateEndValue
      { s with parseState := match s.parseState with
                             | [] => []
                             | _ :: rest => .parseObjectValue :: rest } c
  else stateBeginString s c

/-- Modelled from the spec: `encoding/json` is not under src/.  The state after reading a quote. -/
def stateInString (s : scanner) (c : Byte) : ScanCode × scanner :=
  if c = 34 then (.scanContinue, { s with step := .stateEndValue })
  else if c = 92 then (.scanContinue, { s with step := .stateInStringEsc })
  else if c < 32 then s.error c "in string literal"
  else (.scanContinue, s)

/-- Modelled from the spec: `encoding/json` is not under src/.  The state after reading a backslash inside a quoted string. -/
def stateInStringEsc (s : scanner) (c : Byte) : ScanCode × scanner :=
  match c with
  | 98 | 102 | 110 | 114 | 116 | 92 | 47 | 34 =>
    (.scanContinue, { s with step := .stateInString })
  | 117 => (.scanContinue, { s with step := .stateInStringEscU })
  | _ => s.error c "in string escape code"

/-- Modelled from the spec: `encoding/json` is not under src/.  Whether the byte is a hexadecimal digit, as tested in the `\u` states. -/
def isHex (c : Byte) : Bool :=
  (48 ≤ c && c ≤ 57) || (97 ≤ c && c ≤ 102) || (65 ≤ c && c ≤ 70)

/-- Modelled from the spec: `encoding/json` is not under src/.  The four states inside a `\u` escape share this shape. -/
def stateHex (next : StepFn) (s : scanner) (c : Byte) : ScanCode × scanner :=
  if isHex c then (.scanContinue, { s with step := next })
  else s.error c "in \\u hexadecimal character escape"

/-- Modelled from the spec: `encoding/json` is not under src/.  The state after reading `-` during a number. -/
def stateNeg (s : scanner) (c : Byte) : ScanCode × scanner :=
  if c = 48 then (.scanContinue, { s with step := .state0 })
  else if 49 ≤ c ∧ c ≤ 57 then (.scanContinue, { s with step := .state1 })
  else s.error c "in numeric literal"

/-- Modelled from the spec: `encoding/json` is not under src/.  The state after reading `0` during a number. -/
def state0 (s : scanner) (c : Byte) : ScanCode × scanner :=
  if c = 46 then (.scanContinue, { s with step := .stateDot })
  else if c = 101 ∨ c = 69 then (.scanContinue, { s with step := .stateE })
  else stateEndValue s c

/-- Modelled from the spec: `encoding/json` is not under src/.  The state after reading a non-zero integer during a number. -/
def state1 (s : scanner) (c : Byte) : ScanCode × scanner :=
  if 48 ≤ c ∧ c ≤ 57 then (.scanContinue, { s with step := .state1 })
  else state0 s c

/-- Modelled from the spec: `encoding/json` is not under src/.  The state after reading the integer and decimal point in a number. -/
def stateDot (s : scanner) (c : Byte) : ScanCode × scanner :=
  if 48 ≤ c ∧ c ≤ 57 then (.scanContinue, { s with step := .stateDot0 })
  else s.error c "after decimal point in numeric literal"

/-- Modelled from the spec: `encoding/json` is not under src/.  The state after reading the integer, decimal point and digits. -/
def stateDot0 (s : scanner) (c : Byte) : ScanCode × scanner :=
  if 48 ≤ c ∧ c ≤ 57 then (.scanContinue, s)
  else if c = 101 ∨ c = 69 then (.scanContinue, { s with step := .stateE })
  else stateEndValue s c

/-- Modelled from the spec: `encoding/json` is not under src/.  The state after reading the mantissa, `e` and an optional sign. -/
def stateESign (s : scanner) (c : Byte) : ScanCode × scanner :=
  if 48 ≤ c ∧ c ≤ 57 then (.scanContinue, { s with step := .stateE0 })
  else s.error c "in exponent of numeric literal"

/-- Modelled from the spec: `encoding/json` is not under src/.  The state after reading the mantissa and `e` in a number. -/
def stateE (s : scanner) (c : Byte) : ScanCode × scanner :=
  if c = 43 ∨ c = 45 then (.scanContinue, { s with step := .stateESign })
  else stateESign s c

/-- Modelled from the spec: `encoding/json` is not under src/.  The state after reading the mantissa, `e`, sign and a digit. -/
def stateE0 (s : scanner) (c : Byte) : ScanCode × scanner :=
  if 48 ≤ c ∧ c ≤ 57 then (.scanContinue, s)
  else stateEndValue s c

/-- Modelled from the spec: `encoding/json` is not under src/.  The states inside `true`, `false` and `null`: one expected byte each. -/
def stateLit (want : Byte) (next : StepFn) (context : String) (s : scanner) (c : Byte) :
    ScanCode × scanner :=
  if c = want then (.scanContinue, { s with step := next })
  else s.error c context

/-- Modelled from the spec: `encoding/json` is not under src/.  The call `s.step(s, c)`: dispatch on the current transition function. -/
def scanner.stepOn (s : scanner) (c : Byte) : ScanCode × scanner :=
  match s.step with
  | .stateBeginValueOrEmpty => stateBeginValueOrEmpty s c
  | .stateBeginValue => stateBeginValue s c
  | .stateBeginStringOrEmpty => stateBeginStringOrEmpty s c
  | .stateBeginString => stateBeginString s c
  | .stateEndValue => stateEndValue s c
  | .stateEndTop => stateEndTop s c
  | .stateInString => stateInString s c
  | .stateInStringEsc => stateInStringEsc s c
  | .stateInStringEscU => stateHex .stateInStringEscU1 s c
  | .stateInStringEscU1 => stateHex .stateInStringEscU12 s c
  | .stateInStringEscU12 => stateHex .stateInStringEscU123 s c
  | .stateInStringEscU123 => stateHex .stateInString s c
  | .stateNeg => stateNeg s c
  | .state1 => state1 s c
  | .state0 => state0 s c
  | .stateDot => stateDot s c
  | .stateDot0 => stateDot0 s c
  | .stateE => stateE s c
  | .stateESign => stateESign s c
  | .stateE0 => stateE0 s c
  | .stateT => stateLit 114 .stateTr "in literal true (expecting 'r')" s c
  | .stateTr => stateLit 117 .stateTru "in literal true (expecting 'u')" s c
  | .stateTru => stateLit 101 .stateEndValue "in literal true (expecting 'e')" s c
  | .stateF => stateLit 97 .stateFa "in literal false (expecting 'a')" s c
  | .stateFa => stateLit 108 .stateFal "in literal false (expecting 'l')" s c
  | .stateFal => stateLit 115 .stateFals "in literal false (expecting 's')" s c
  | .stateFals => stateLit 101 .stateEndValue "in literal false (expecting 'e')" s c
  | .stateN => stateLit 117 .stateNu "in literal null (expecting 'u')" s c
  | .stateNu => stateLit 108 .stateNul "in literal null (expecting 'l')" s c
  | .stateNul => stateLit 108 .stateEndValue "in literal null (expecting 'l')" s c
  | .stateError => (.scanError, s)

/-- Modelled from the spec: `encoding/json` is not under src/.  The method `scanner.eof`: the scanner is told that the input has ended. -/
def scanner.eof (s : scanner) : ScanCode × scanner :=
  if s.err.isSome then (.scanError, s)
  else if s.endTop then (.scanEnd, s)
  else
    let s := (s.stepOn 32).2
    if s.endTop then (.scanEnd, s)
    else if s.err.isNone then
      (.scanError,
        { s with err := some { char := none, context := "unexpected end of JSON input",
                               Offset := s.bytes } })
    else (.scanError, s)

/-! ## `json.Indent` -/

/-- Modelled from the spec: `encoding/json` is not under src/.  The state of the loop of `json.Indent`; `stopped` records that the loop
was left by `break`. -/
structure IndentState where
  scan : scanner
  needIndent : Bool
  depth : Int
  dst : List Byte
  stopped : Bool
  deriving DecidableEq, Repr

/-- Modelled from the spec: `encoding/json` is not under src/.  The helper `newline` of `indent.go`: a newline, the prefix, and the indent
once per depth. -/
def newline (dst : List Byte) (pfx indent : List Byte) (depth : Int) : List Byte :=
  dst ++ 10 :: pfx ++ (List.replicate depth.toNat indent).flatten

/-- Modelled from the spec: `encoding/json` is not under src/.  The loop body of `json.Indent`, second part: the delayed indent after an
opening bracket, taken unless the bracket is closed at once. -/
def openIndent (pfx indent : List Byte) (v : ScanCode) (st : IndentState) : IndentState :=
  if st.needIndent ∧ v ≠ .scanEndObject ∧ v ≠ .scanEndArray then
    { st with needIndent := false, depth := st.depth + 1,
              dst := newline st.dst pfx indent (st.depth + 1) }
  else st

/-- Modelled from the spec: `encoding/json` is not under src/.  The loop body of `json.Indent`, third part: bytes inside literals are
copied, punctuation gets its spacing. -/
def emitByte (pfx indent : List Byte) (v : ScanCode) (c : Byte) (st : IndentState) :
    IndentState :=
  if v = .scanContinue then { st with dst := st.dst ++ [c] }
  else match c with
    | 123 | 91 => { st with needIndent := true, dst := st.dst ++ [c] }
    | 44 => { st with dst := newline (st.dst ++ [c]) pfx indent st.depth }
    | 58 => { st with dst := st.dst ++ [c, 32] }
    | 125 | 93 =>
      if st.needIndent then { st with needIndent := false, dst := st.dst ++ [c] }
      else { st with depth := st.depth - 1,
                     dst := newline st.dst pfx indent (st.depth - 1) ++ [c] }
    | _ => { st with dst := st.dst ++ [c] }

/-- Modelled from the spec: `encoding/json` is not under src/.  One iteration of the loop `for _, c := range src` of `json.Indent`: the
scanner is stepped, skipped space is dropped, an error leaves the loop, and
every other byte is emitted. -/
def indentStep (pfx indent : List Byte) (st : IndentState) (c : Byte) : IndentState :=
  if st.stopped then st
  else
    let r := ({ st.scan with bytes := st.scan.bytes + 1 }).stepOn c
    if r.1 = .scanSkipSpace then { st with scan := r.2 }
    else if r.1 = .scanError then { st with scan := r.2, stopped := true }
    else emitByte pfx indent r.1 c (openIndent pfx indent r.1 { st with scan := r.2 })

/-- Modelled from the spec: `json.Indent` belongs to Go's standard library
(`encoding/json`, files `indent.go` and `scanner.go`) and is not part of the
repository; the spec asks for a formatter that validates structurally, reports
a byte offset for syntax errors and re-emits the document with a newline and
the indent once per nesting depth.  The definition follows the library: the
result is `dst` with the indented form of `src` appended, or `dst` unchanged
together with the syntax error. -/
def Indent (dst src pfx indent : List Byte) : List Byte × Option SyntaxError :=
  let st := src.foldl (indentStep pfx indent)
    { scan := scanner.reset, needIndent := false, depth := 0, dst := dst, stopped := false }
  let r := st.scan.eof
  if r.1 = .scanError then (dst, r.2.err) else (st.dst, none)

/-! ## The program `jsonpp.go` -/

/-- The non-nil values of Go's `error` that the program tells apart. -/
inductive GoError where
  | EOF
  | syntaxError (e : SyntaxError)
  | other (msg : String)
  deriving DecidableEq, Repr

/-- A line written to standard error, by the `Fprintf` call that writes it:
`brokenAt` is `"ERROR: Broken json on line %d, char %d: %s\n"`, `context` is
`"  Context: %s%s%s\n"`, `broken` is `"ERROR: Broken json on line %d: %s\n"`,
`error` is `"ERROR: %s\n"`, and `usage` is a call with a format string only. -/
inductive Diag where
  | brokenAt (lineNum : Nat) (offset : Int) (jsErr : GoError)
  | context (pfx : List Byte) (b : List Byte) (sfx : List Byte)
  | broken (lineNum : Nat) (jsErr : GoError)
  | error (err : Option GoError)
  | usage (format : List Byte)
  deriving DecidableEq, Repr

/-- What the process has done so far: the bytes written to standard output,
the lines written to standard error, and two records kept for the proofs: the
units handed to `indentAndPrint` with their line numbers, and the paths given
to `os.OpenFile`. -/
structure World where
  stdout : List Byte
  stderr : List Diag
  units : List (List Byte × Nat)
  opened : List String
  deriving DecidableEq, Repr

/-- How a run can fail to return: a run-time panic, or a loop of the model
that was not given enough iterations. -/
inductive Fault where
  | panic
  | fuel
  deriving DecidableEq, Repr

/-- The outcome of a run: it returns a value, or it does not. -/
inductive Outcome (α : Type) where
  | ok (a : α)
  | fault (f : Fault)
  deriving DecidableEq, Repr

/-- A file opened for reading: its content, and the read failure met after the
content, if any (`none`: the content ends with a clean `io.EOF`). -/
structure File where
  data : List Byte
  readErr : Option String
  deriving DecidableEq, Repr

/-- A `bufio.Reader` over a file: the bytes not yet read and the failure that
follows them. -/
structure Reader where
  rest : List Byte
  readErr : Option String
  deriving DecidableEq, Repr

/-- The call `bufio.NewReader(fn)`. -/
def NewReader (fn : File) : Reader := { rest := fn.data, readErr := fn.readErr }

/-- The bytes up to and including the first `delim`, and what follows them;
`none` when there is no `delim`. -/
def cutAt (delim : Byte) : List Byte → Option (List Byte × List Byte)
  | [] => none
  | c :: cs =>
    if c = delim then some ([c], cs)
    else match cutAt delim cs with
      | none => none
      | some (line, rest) => some (c :: line, rest)

/-- Modelled from the spec: `bufio` is Go library code, not under src/; the spec has line mode split "on the newline byte, inclusive of the newline".  The method `bufio.Reader.ReadBytes`: the bytes up to and including the
delimiter, or, when the input ends first, the bytes read so far and the error
(`io.EOF` or the read failure). -/
def Reader.ReadBytes (b : Reader) (delim : Byte) : List Byte × Option GoError × Reader :=
  match cutAt delim b.rest with
  | some (line, rest) => (line, none, { b with rest := rest })
  | none =>
    (b.rest,
     some (match b.readErr with
           | none => GoError.EOF
           | some msg => GoError.other msg),
     { b with rest := [] })

/-- Modelled from the spec: `ioutil` is Go library code, not under src/; the spec has single mode "read the entire source to completion".  The call `ioutil.ReadAll(fn)`. -/
def ReadAll (fn : File) : List Byte × Option GoError :=
  (fn.data, fn.readErr.map GoError.other)

/-- Modelled from the spec: `bytes` is Go library code, not under src/; the spec has every newline byte removed.  The call `bytes.Split(s, sep)` for a separator of one byte, which is what
the program's `newline` is: the pieces of `s` between the separators. -/
def Split : List Byte → Byte → List (List Byte)
  | [], _ => [[]]
  | c :: cs, sep =>
    if c = sep then [] :: Split cs sep
    else match Split cs sep with
      | [] => [[c]]
      | piece :: pieces => (c :: piece) :: pieces

/-- Modelled from the spec: `bytes` is Go library code, not under src/; the spec has the pieces concatenated "with no separator".  The call `bytes.Join(s, sep)`. -/
def Join (s : List (List Byte)) (sep : List Byte) : List Byte := sep.intercalate s

/-- The slice expression `js[b:e]` on a slice without spare capacity; `none`
stands for the run-time panic on bounds out of range. -/
def slice (js : List Byte) (b e : Int) : Option (List Byte) :=
  if 0 ≤ b ∧ b ≤ e ∧ e ≤ js.length then some ((js.drop b.toNat).take (e.toNat - b.toNat))
  else none

/-- Modelled from the spec: `bytes` is Go library code, not under src/; the spec has "trailing carriage-return/newline bytes" stripped.  The call `bytes.TrimRight(s, cutset)`: `s` without its trailing bytes that
occur in `cutset`. -/
def TrimRight (s : List Byte) (cutset : List Byte) : List Byte :=
  s.rdropWhile (fun c => cutset.contains c)

/-- The variables `begin`, `end`, `prefix` and `suffix` of `malformedJSON`. -/
structure Window where
  begin : Int
  endIdx : Int
  pfx : List Byte
  sfx : List Byte
  deriving DecidableEq, Repr

/-- The window computed by `malformedJSON` for a syntax error at `Offset` in a
unit of `len` bytes. -/
def contextWindow (Offset : Int) (len : Int) : Window :=
  let pfx := if Offset > 15 then str "..." else str ""
  let begin := if Offset > 15 then Offset - 15 else 0
  let endIdx := begin + 30
  if endIdx > len then { begin := begin, endIdx := len, pfx := pfx, sfx := str "" }
  else { begin := begin, endIdx := endIdx, pfx := pfx, sfx := str "..." }

/-- The function `malformedJSON`. -/
def malformedJSON (jsErr : GoError) (js : List Byte) (lineNum : Nat) (w : World) :
    Outcome World :=
  match jsErr with
  | .syntaxError synErr =>
    let w := { w with stderr := w.stderr ++ [Diag.brokenAt lineNum synErr.Offset jsErr] }
    let win := contextWindow synErr.Offset js.length
    match slice js win.begin win.endIdx with
    | none => .fault .panic
    | some window =>
      .ok { w with stderr := w.stderr ++ [Diag.context win.pfx (TrimRight window [13, 10]) win.sfx] }
  | _ => .ok { w with stderr := w.stderr ++ [Diag.broken lineNum jsErr] }

/-- The function `printError`. -/
def printError (err : Option GoError) (w : World) : World :=
  { w with stderr := w.stderr ++ [Diag.error err] }

/-- The function `indentAndPrint`.  The buffer is passed in and handed back;
the result is the status and the buffer. -/
def indentAndPrint (buf : List Byte) (js : List Byte) (lineNum : Nat) (indent : List Byte)
    (w : World) : Outcome (Nat × List Byte × World) :=
  let w := { w with units := w.units ++ [(js, lineNum)] }
  let r := Indent buf js [] indent
  match r.2 with
  | some jsErr =>
    match malformedJSON (.syntaxError jsErr) js lineNum w with
    | .fault f => .fault f
    | .ok w => .ok (1, r.1, w)
  | none => .ok (0, r.1, { w with stdout := w.stdout ++ r.1 })

/-- The loop of `processMultipleFile`, for at most `fuel` iterations.  The
line counter is an `int64` in the source; it is a natural number here, a
stream would need `2^63` lines to wrap it. -/
def processLoop (indent : List Byte) :
    Nat → Reader → List Byte → Nat → World → Outcome (Nat × World)
  | 0, _, _, _, _ => .fault .fuel
  | fuel + 1, bufIn, buf, lineNum, w =>
    let r := bufIn.ReadBytes 10
    let lastLine := r.1
    let err := r.2.1
    if err ≠ none ∧ err ≠ some .EOF then .ok (2, printError err w)
    else if err = some .EOF ∧ lastLine.length = 0 then .ok (0, w)
    else
      match indentAndPrint buf lastLine lineNum indent w with
      | .fault f => .fault f
      | .ok (status, _, w) =>
        if status > 0 then .ok (status, w)
        else if err = some .EOF then .ok (0, w)
        else processLoop indent fuel r.2.2 [] (lineNum + 1) w

/-- The function `processMultipleFile`: every iteration of its loop but the
last reads at least one byte, so one iteration more than there are bytes is
enough. -/
def processMultipleFile (fn : File) (indent : List Byte) (w : World) :
    Outcome (Nat × World) :=
  processLoop indent (fn.data.length + 1) (NewReader fn) [] 1 w

/-- The function `processSingularFile`. -/
def processSingularFile (fn : File) (indent : List Byte) (w : World) :
    Outcome (Nat × World) :=
  let r := ReadAll fn
  if r.2 ≠ none then .ok (2, printError r.2 w)
  else
    let b := Join (Split r.1 10) []
    match indentAndPrint [] b 1 indent w with
    | .fault f => .fault f
    | .ok (status, _, w) => .ok (status, w)

/-- What `main` reads from its environment: the program name `os.Args[0]`,
the flags and the positional arguments as `flag.Parse` leaves them, the
variable `JSONPP_INDENT` (empty when unset), the outcome of `os.OpenFile` for
each path, and standard input. -/
structure Env where
  Args0 : List Byte
  help : Bool
  single : Bool
  Args : List String
  JSONPP_INDENT : List Byte
  OpenFile : String → Except String File
  Stdin : File

/-- The loop over `flag.Args()` in `main`. -/
def fileLoop (processFunc : File → List Byte → World → Outcome (Nat × World))
    (indent : List Byte) (OpenFile : String → Except String File) :
    List String → Nat → World → Outcome (Nat × World)
  | [], exitStatus, w => .ok (exitStatus, w)
  | filename :: rest, _, w =>
    let w := { w with opened := w.opened ++ [filename] }
    match OpenFile filename with
    | .error err => fileLoop processFunc indent OpenFile rest 1 (printError (some (.other err)) w)
    | .ok file =>
      match processFunc file indent w with
      | .fault f => .fault f
      | .ok (exitStatus, w) =>
        if exitStatus > 0 then .ok (exitStatus, w)
        else fileLoop processFunc indent OpenFile rest exitStatus w

/-- The function `main`: the exit status and what was written.  The slice
`cmd[0:2]` panics on a program name shorter than two bytes. -/
def main (env : Env) : Outcome (Nat × World) :=
  let w : World := { stdout := [], stderr := [], units := [], opened := [] }
  if env.help then
    let cmd := env.Args0
    if cmd.length < 2 then .fault .panic
    else
      let cmd := if cmd.take 2 = str "./" then cmd.drop 2 else cmd
      .ok (0, { w with stderr :=
        [Diag.usage (str "Usage: " ++ cmd ++ str " [file]" ++ str "\n"),
         Diag.usage (str "   or: $COMMAND | " ++ cmd ++ str "\n")] })
  else
    let indent := if env.JSONPP_INDENT = [] then str "  " else env.JSONPP_INDENT
    let processFunc := if env.single then processSingularFile else processMultipleFile
    if env.Args.length > 0 then fileLoop processFunc indent env.OpenFile env.Args 0 w
    else processFunc env.Stdin indent w

/-! ## Predicates used in the proofs -/

/-- What one transition may do to the byte count and the recorded error: the
count is kept, and a new error carries the count as its offset. -/
def stepShape (s s' : scanner) : Prop :=
  s'.bytes = s.bytes ∧ (s'.err = s.err ∨ ∃ e, s'.err = some e ∧ e.Offset = s.bytes)

/-- The invariant of the loop of `json.Indent` after `n` bytes: at most `n`
bytes were counted and a recorded error points into them. -/
def offsetInv (n : Nat) (s : scanner) : Prop :=
  s.bytes ≤ n ∧ ∀ e, s.err = some e → 0 ≤ e.Offset ∧ e.Offset ≤ n

/-- The description of line mode in the spec, to compare `processMultipleFile`
with: the input cut after each newline byte; a tail without newline is a unit
of its own, and no unit is empty. -/
def cutAfterNewlines : List Byte → List (List Byte)
  | [] => []
  | c :: cs =>
    if c = 10 then [c] :: cutAfterNewlines cs
    else match cutAfterNewlines cs with
      | [] => [[c]]
      | u :: us => (c :: u) :: us

/-- The units with their numbers `n`, `n + 1`, `n + 2`, ... in order. -/
def numberFrom : Nat → List (List Byte) → List (List Byte × Nat)
  | _, [] => []
  | n, u :: us => (u, n) :: numberFrom (n + 1) us

/-- The unit passes `json.Indent` as `indentAndPrint` calls it. -/
def accepted (indent u : List Byte) : Prop := (Indent [] u [] indent).2 = none

/-- The bytes that `indentAndPrint` writes to standard output for the unit. -/
def rendering (indent u : List Byte) : List Byte := (Indent [] u [] indent).1

/-- The unit is a line: it ends with its newline byte and holds no other. -/
def isLine (u : List Byte) : Prop := ∃ b, u = b ++ [10] ∧ (10 : Byte) ∉ b

/-- The two lines `malformedJSON` writes for a syntax error in unit `u`,
reported with line number `k`. -/
def diagnostic (u : List Byte) (k : Nat) (e : SyntaxError) (window : List Byte) : List Diag :=
  [Diag.brokenAt k e.Offset (.syntaxError e),
   Diag.context (contextWindow e.Offset u.length).pfx (TrimRight window [13, 10])
     (contextWindow e.Offset u.length).sfx]

/-- What processing one source does to the world `w`, in terms of the units
`us` it handed to `indentAndPrint`: all of them passed (status 0, or status 2
when a read failure ended the source), or the last one failed (status 1). -/
def sourceRun (indent : List Byte) (us : List (List Byte)) (n : Nat) (w : World)
    (status : Nat) (w' : World) : Prop :=
  w'.units = w.units ++ numberFrom n us ∧ w'.opened = w.opened ∧
  ((status = 0 ∧ (∀ u ∈ us, accepted indent u) ∧
      w'.stdout = w.stdout ++ (us.map (rendering indent)).flatten ∧ w'.stderr = w.stderr) ∨
   (status = 1 ∧ ∃ us1 u e window, us = us1 ++ [u] ∧ (∀ v ∈ us1, accepted indent v) ∧
      (Indent [] u [] indent).2 = some e ∧
      slice u (contextWindow e.Offset u.length).begin
        (contextWindow e.Offset u.length).endIdx = some window ∧
      w'.stdout = w.stdout ++ (us1.map (rendering indent)).flatten ∧
      w'.stderr = w.stderr ++ diagnostic u (n + us1.length) e window) ∨
   (status = 2 ∧ (∀ u ∈ us, accepted indent u) ∧
      w'.stdout = w.stdout ++ (us.map (rendering indent)).flatten ∧
      ∃ err, w'.stderr = w.stderr ++ [Diag.error err]))

/-- The units `us` are the first units of the source `fn`: of its cut input in
line mode, of the one unit without newline bytes in single mode. -/
def fromSource (single : Bool) (fn : File) (us : List (List Byte)) : Prop :=
  if single then us <+: [fn.data.filter (fun c => c ≠ 10)]
  else us <+: cutAfterNewlines fn.data

/-- The state of the world between two sources: every unit handed to the
formatter so far was accepted and standard output holds the renderings. -/
def allRendered (indent : List Byte) (w : World) : Prop :=
  (∀ p ∈ w.units, accepted indent p.1) ∧
  w.stdout = (w.units.map (fun p => rendering indent p.1)).flatten

/-- The run ended with the failure of unit `u`, the unit number `k` of the
source `fn`, starting from the world `w` in which `fn` was opened: the units
before it and their renderings, the diagnostic, and nothing after it. -/
def endsInFailure (indent : List Byte) (single : Bool) (fn : File) (w w' : World)
    (u : List Byte) (k : Nat) : Prop :=
  ∃ us1 e window,
    fromSource single fn (us1 ++ [u]) ∧ k = us1.length + 1 ∧
    w'.units = w.units ++ numberFrom 1 us1 ++ [(u, k)] ∧
    (∀ p ∈ w.units, accepted indent p.1) ∧ (∀ v ∈ us1, accepted indent v) ∧
    (Indent [] u [] indent).2 = some e ∧
    slice u (contextWindow e.Offset u.length).begin
      (contextWindow e.Offset u.length).endIdx = some window ∧
    w'.stdout = w.stdout ++ (us1.map (rendering indent)).flatten ∧
    w.stdout = (w.units.map (fun p => rendering indent p.1)).flatten ∧
    w'.stderr = w.stderr ++ diagnostic u k e window

/-- The two states right after an opening bracket. -/
def isOrEmpty (t : StepFn) : Prop :=
  t = .stateBeginValueOrEmpty ∨ t = .stateBeginStringOrEmpty

/-- The states that wait for the start of a value or of a key; they skip
space. -/
def isBegin (t : StepFn) : Prop :=
  t = .stateBeginValueOrEmpty ∨ t = .stateBeginValue ∨ t = .stateBeginStringOrEmpty ∨
    t = .stateBeginString

/-- The states in which a value is complete or may be complete: after a
value, and inside a number that could end here. -/
def isNumEnd (t : StepFn) : Prop :=
  t = .state0 ∨ t = .state1 ∨ t = .stateDot0 ∨ t = .stateE0 ∨ t = .stateEndValue

/-- What a transition without error from `s` on byte `c` with return value `v`
to `s'` tells about the byte and the two states. -/
def Kind (s : scanner) (c : Byte) (v : ScanCode) (s' : scanner) : Prop :=
  s'.step ≠ .stateError ∧
  match v with
  | .scanSkipSpace =>
    isSpace c = true ∧
      ((isBegin s.step ∧ s' = s) ∨
       (isNumEnd s.step ∧ s.parseState ≠ [] ∧ s' = { s with step := .stateEndValue }))
  | .scanError => False
  | .scanContinue => ¬ isOrEmpty s.step ∧ s.step ≠ .stateEndValue
  | .scanBeginLiteral =>
    isBegin s.step ∧
      (c = 34 ∨ c = 45 ∨ (48 ≤ c ∧ c ≤ 57) ∨ c = 116 ∨ c = 102 ∨ c = 110)
  | .scanBeginObject => isBegin s.step ∧ c = 123 ∧ isOrEmpty s'.step
  | .scanBeginArray => isBegin s.step ∧ c = 91 ∧ isOrEmpty s'.step
  | .scanObjectKey => isNumEnd s.step ∧ c = 58 ∧ isBegin s'.step
  | .scanObjectValue => isNumEnd s.step ∧ c = 44 ∧ isBegin s'.step
  | .scanArrayValue => isNumEnd s.step ∧ c = 44 ∧ isBegin s'.step
  | .scanEndObject => (isNumEnd s.step ∨ isOrEmpty s.step) ∧ s.parseState ≠ [] ∧ c = 125
  | .scanEndArray => (isNumEnd s.step ∨ isOrEmpty s.step) ∧ s.parseState ≠ [] ∧ c = 93
  | .scanEnd =>
    isSpace c = true ∧ (s.step = .stateEndTop ∨ (isNumEnd s.step ∧ s.parseState = []))

/-- The loop state with its scanner replaced. -/
def withScan (st : IndentState) (s : scanner) : IndentState := { st with scan := s }

/-- A loop state that may still lead to success: the loop was not left, no
error is recorded, and a pending indent means that the last byte was an
opening bracket. -/
def live (st : IndentState) : Prop :=
  st.stopped = false ∧ st.scan.err = none ∧ st.scan.step ≠ .stateError ∧
    (st.needIndent = true → isOrEmpty st.scan.step)

/-- The loop state `st2` of a second pass over the output of a first pass in
state `st1`: the same but for the byte count, and for a number that the first
pass has seen the end of (it skipped a space) and the second pass has not. -/
def twin (st1 st2 : IndentState) : Prop :=
  ∃ b t, st2 = withScan st1 { st1.scan with bytes := b, step := t } ∧
    (t = st1.scan.step ∨
      (st1.scan.step = .stateEndValue ∧ isNumEnd t ∧ st1.scan.parseState ≠ []))

/-- All bytes are space for the scanner. -/
def allSpace (l : List Byte) : Prop := ∀ c ∈ l, isSpace c = true

/-! ## The scanner: byte count and error offset -/

theorem stepShape_refl (s : scanner) : stepShape s s := by
  simp [stepShape]

theorem stepShape_endTop (s : scanner) (c : Byte) : stepShape s (stateEndTop s c).2 := by
  unfold stateEndTop; split <;> simp [stepShape, scanner.error]

theorem stepShape_endValue (s : scanner) (c : Byte) : stepShape s (stateEndValue s c).2 := by
  unfold stateEndValue
  split
  · have := stepShape_endTop { s with step := .stateEndTop, endTop := true } c
    simpa [stepShape] using this
  · split
    · simp [stepShape]
    · split <;> (repeat' split) <;>
        simp [stepShape, scanner.error, scanner.popParseState] <;> split <;> simp

theorem stepShape_beginValue (s : scanner) (c : Byte) : stepShape s (stateBeginValue s c).2 := by
  unfold stateBeginValue
  repeat' split
  all_goals simp [stepShape, scanner.error, scanner.pushParseState]
  all_goals split <;> simp

theorem stepShape_beginString (s : scanner) (c : Byte) : stepShape s (stateBeginString s c).2 := by
  unfold stateBeginString
  repeat' split
  all_goals simp [stepShape, scanner.error]

theorem stepShape_lit (w : Byte) (t : StepFn) (m : String) (s : scanner) (c : Byte) :
    stepShape s (stateLit w t m s c).2 := by
  unfold stateLit; split <;> simp [stepShape, scanner.error]

theorem stepShape_hex (t : StepFn) (s : scanner) (c : Byte) : stepShape s (stateHex t s c).2 := by
  unfold stateHex; split <;> simp [stepShape, scanner.error]

theorem stepShape_state0 (s : scanner) (c : Byte) : stepShape s (state0 s c).2 := by
  unfold state0
  repeat' split
  · simp [stepShape]
  · simp [stepShape]
  · exact stepShape_endValue s c

theorem stepShape_eSign (s : scanner) (c : Byte) : stepShape s (stateESign s c).2 := by
  unfold stateESign; split <;> simp [stepShape, scanner.error]

theorem stepShape_stepOn (s : scanner) (c : Byte) : stepShape s (s.stepOn c).2 := by
  unfold scanner.stepOn
  split
  · unfold stateBeginValueOrEmpty
    repeat' split
    · exact stepShape_refl s
    · exact stepShape_endValue s c
    · exact stepShape_beginValue s c
  · exact stepShape_beginValue s c
  · unfold stateBeginStringOrEmpty
    repeat' split
    · exact stepShape_refl s
    · have := stepShape_endValue { s with parseState := [] } c
      simpa [stepShape] using this
    · rename_i rest _
      have := stepShape_endValue { s with parseState := .parseObjectValue :: rest } c
      simpa [stepShape] using this
    · exact stepShape_beginString s c
  · exact stepShape_beginString s c
  · exact stepShape_endValue s c
  · exact stepShape_endTop s c
  · unfold stateInString; (repeat' split) <;> simp [stepShape, scanner.error]
  · unfold stateInStringEsc; (repeat' split) <;> simp [stepShape, scanner.error]
  · exact stepShape_hex _ s c
  · exact stepShape_hex _ s c
  · exact stepShape_hex _ s c
  · exact stepShape_hex _ s c
  · unfold stateNeg; (repeat' split) <;> simp [stepShape, scanner.error]
  · unfold state1; split
    · simp [stepShape]
    · exact stepShape_state0 s c
  · exact stepShape_state0 s c
  · unfold stateDot; (repeat' split) <;> simp [stepShape, scanner.error]
  · unfold stateDot0; repeat' split
    · simp [stepShape]
    · simp [stepShape]
    · exact stepShape_endValue s c
  · unfold stateE; split
    · simp [stepShape]
    · exact stepShape_eSign s c
  · exact stepShape_eSign s c
  · unfold stateE0; split
    · simp [stepShape]
    · exact stepShape_endValue s c
  all_goals first
    | exact stepShape_lit _ _ _ s c
    | exact stepShape_refl s

/-! ## `json.Indent`: the reported offset lies in the input -/

theorem openIndent_scan (pfx indent : List Byte) (v : ScanCode) (st : IndentState) :
    (openIndent pfx indent v st).scan = st.scan := by
  unfold openIndent; split <;> rfl

theorem emitByte_scan (pfx indent : List Byte) (v : ScanCode) (c : Byte) (st : IndentState) :
    (emitByte pfx indent v c st).scan = st.scan := by
  unfold emitByte; (repeat' split) <;> rfl

theorem indentStep_scan (pfx indent : List Byte) (st : IndentState) (c : Byte) :
    (indentStep pfx indent st c).scan =
      if st.stopped then st.scan
      else (({ st.scan with bytes := st.scan.bytes + 1 }).stepOn c).2 := by
  unfold indentStep
  split
  · rfl
  · simp only []
    split
    · rfl
    · split
      · rfl
      · rw [emitByte_scan, openIndent_scan]

theorem offsetInv_mono {n m : Nat} {s : scanner} (h : offsetInv n s) (hnm : n ≤ m) :
    offsetInv m s := by
  refine ⟨le_trans h.1 hnm, fun e he => ?_⟩
  have := h.2 e he
  exact ⟨this.1, by have : (n : Int) ≤ m := by exact_mod_cast hnm
                    omega⟩

theorem offsetInv_stepOn {n : Nat} {s : scanner} (c : Byte) (h : offsetInv n s) :
    offsetInv n (s.stepOn c).2 := by
  obtain ⟨hb, he⟩ := stepShape_stepOn s c
  refine ⟨by rw [hb]; exact h.1, fun e hse => ?_⟩
  rcases he with he | ⟨e', he', ho⟩
  · exact h.2 e (by rw [← he]; exact hse)
  · rw [he'] at hse
    cases hse
    rw [ho]
    have := h.1
    exact ⟨by omega, by exact_mod_cast this⟩

theorem offsetInv_indentStep {n : Nat} (pfx indent : List Byte) (st : IndentState) (c : Byte)
    (h : offsetInv n st.scan) : offsetInv (n + 1) (indentStep pfx indent st c).scan := by
  rw [indentStep_scan]
  split
  · exact offsetInv_mono h (Nat.le_succ n)
  · apply offsetInv_stepOn
    refine ⟨by simpa using h.1, fun e he => ?_⟩
    have := h.2 e he
    exact ⟨this.1, by push_cast; omega⟩

theorem offsetInv_foldl (pfx indent : List Byte) (src : List Byte) :
    ∀ (n : Nat) (st : IndentState), offsetInv n st.scan →
      offsetInv (n + src.length) (src.foldl (indentStep pfx indent) st).scan := by
  induction src with
  | nil => intro n st h; simpa using h
  | cons c cs ih =>
    intro n st h
    have := ih (n + 1) _ (offsetInv_indentStep pfx indent st c h)
    simpa [Nat.add_assoc, Nat.add_comm 1] using this

theorem offsetInv_eof {n : Nat} {s : scanner} (h : offsetInv n s) : offsetInv n s.eof.2 := by
  unfold scanner.eof
  split
  · exact h
  · split
    · exact h
    · have h2 := offsetInv_stepOn 32 h
      simp only []
      split
      · exact h2
      · split
        · refine ⟨h2.1, fun e he => ?_⟩
          simp at he
          rw [← he]
          have := h2.1
          exact ⟨by simp, by simpa using this⟩
        · exact h2

/-- The offset of a syntax error reported by `json.Indent` lies between zero
and the length of the input. -/
theorem Indent_offset (dst src pfx indent : List Byte) (e : SyntaxError)
    (h : (Indent dst src pfx indent).2 = some e) : 0 ≤ e.Offset ∧ e.Offset ≤ src.length := by
  unfold Indent at h
  simp only [] at h
  split at h
  · have h0 : offsetInv 0 scanner.reset := by simp [offsetInv, scanner.reset]
    have h1 := offsetInv_foldl pfx indent src 0
      { scan := scanner.reset, needIndent := false, depth := 0, dst := dst, stopped := false } h0
    have h2 := offsetInv_eof h1
    have := h2.2 e h
    simpa using this
  · simp at h


/-! ## The program never panics while reporting -/

theorem contextWindow_begin (Offset len : Int) :
    (contextWindow Offset len).begin = if Offset > 15 then Offset - 15 else 0 := by
  unfold contextWindow
  simp only []
  split <;> split <;> rfl

theorem contextWindow_endIdx (Offset len : Int) :
    (contextWindow Offset len).endIdx =
      if (contextWindow Offset len).begin + 30 > len then len
      else (contextWindow Offset len).begin + 30 := by
  rw [contextWindow_begin]
  unfold contextWindow
  simp only []
  split <;> split <;> simp_all

theorem contextWindow_pfx (Offset len : Int) :
    (contextWindow Offset len).pfx = if Offset > 15 then str "..." else str "" := by
  unfold contextWindow
  simp only []
  split <;> split <;> rfl

theorem contextWindow_sfx (Offset len : Int) :
    (contextWindow Offset len).sfx =
      if (contextWindow Offset len).begin + 30 > len then str "" else str "..." := by
  rw [contextWindow_begin]
  unfold contextWindow
  simp only []
  split <;> split <;> simp_all

theorem contextWindow_bounds (Offset len : Int) (h0 : 0 ≤ Offset) (h1 : Offset ≤ len) :
    0 ≤ (contextWindow Offset len).begin ∧
      (contextWindow Offset len).begin ≤ (contextWindow Offset len).endIdx ∧
      (contextWindow Offset len).endIdx ≤ len := by
  rw [contextWindow_endIdx, contextWindow_begin]
  split <;> split <;> omega

theorem malformedJSON_ok (e : SyntaxError) (js : List Byte) (lineNum : Nat) (w : World)
    (h0 : 0 ≤ e.Offset) (h1 : e.Offset ≤ js.length) :
    ∃ window, slice js (contextWindow e.Offset js.length).begin
        (contextWindow e.Offset js.length).endIdx = some window ∧
      malformedJSON (.syntaxError e) js lineNum w =
        .ok { w with stderr := w.stderr ++
          [Diag.brokenAt lineNum e.Offset (.syntaxError e),
           Diag.context (contextWindow e.Offset js.length).pfx (TrimRight window [13, 10])
             (contextWindow e.Offset js.length).sfx] } := by
  have hb := contextWindow_bounds e.Offset js.length h0 h1
  have hs : ∃ window, slice js (contextWindow e.Offset js.length).begin
      (contextWindow e.Offset js.length).endIdx = some window := by
    unfold slice
    rw [if_pos hb]
    exact ⟨_, rfl⟩
  obtain ⟨window, hw⟩ := hs
  refine ⟨window, hw, ?_⟩
  simp [malformedJSON, hw]

/-- The function `indentAndPrint` always returns: status 0 with the indented
bytes written to standard output, or status 1 with a diagnostic. -/
theorem indentAndPrint_cases (buf js : List Byte) (lineNum : Nat) (indent : List Byte)
    (w : World) :
    ((Indent buf js [] indent).2 = none ∧
      indentAndPrint buf js lineNum indent w =
        .ok (0, (Indent buf js [] indent).1,
          { w with units := w.units ++ [(js, lineNum)],
                   stdout := w.stdout ++ (Indent buf js [] indent).1 })) ∨
    (∃ e window, (Indent buf js [] indent).2 = some e ∧
      slice js (contextWindow e.Offset js.length).begin
        (contextWindow e.Offset js.length).endIdx = some window ∧
      indentAndPrint buf js lineNum indent w =
        .ok (1, (Indent buf js [] indent).1,
          { w with units := w.units ++ [(js, lineNum)],
                   stderr := w.stderr ++
                     [Diag.brokenAt lineNum e.Offset (.syntaxError e),
                      Diag.context (contextWindow e.Offset js.length).pfx
                        (TrimRight window [13, 10])
                        (contextWindow e.Offset js.length).sfx] })) := by
  cases h : (Indent buf js [] indent).2 with
  | none =>
    left
    refine ⟨rfl, ?_⟩
    simp [indentAndPrint, h]
  | some e =>
    right
    have ho := Indent_offset buf js [] indent e h
    obtain ⟨window, hw, hm⟩ := malformedJSON_ok e js lineNum
      { w with units := w.units ++ [(js, lineNum)] } ho.1 ho.2
    refine ⟨e, window, rfl, hw, ?_⟩
    simp [indentAndPrint, h, hm]

/-! ## Single mode: the unit is the input without its newline bytes -/

theorem Split_ne_nil (s : List Byte) (sep : Byte) : Split s sep ≠ [] := by
  induction s with
  | nil => simp [Split]
  | cons c cs ih =>
    unfold Split
    split
    · simp
    · split <;> simp

theorem flatten_Split (s : List Byte) (sep : Byte) :
    (Split s sep).flatten = s.filter (fun c => c ≠ sep) := by
  induction s with
  | nil => simp [Split]
  | cons c cs ih =>
    unfold Split
    split
    · rename_i h
      simp [h, ih]
    · rename_i h
      split
      · rename_i h2
        exact absurd h2 (Split_ne_nil cs sep)
      · rename_i piece pieces h2
        rw [h2] at ih
        simp only [List.flatten_cons] at ih
        simp only [List.flatten_cons, List.cons_append]
        rw [ih, List.filter_cons]
        simp [h]

theorem Join_nil (s : List (List Byte)) : Join s [] = s.flatten := by
  unfold Join List.intercalate
  induction s with
  | nil => rfl
  | cons a t ih =>
    cases t with
    | nil => simp [List.intersperse]
    | cons b u =>
      simp only [List.intersperse, List.flatten_cons] at ih ⊢
      simp [ih]

theorem Join_Split (b : List Byte) : Join (Split b 10) [] = b.filter (fun c => c ≠ 10) := by
  rw [Join_nil, flatten_Split]

/-- C4: in single mode a source read without error yields exactly one unit,
numbered 1, which is the input with every newline byte deleted and every other
byte kept in order; the unit holds no newline byte, and the input
`{\n"a":1\n}` becomes the unit `{"a":1}`. -/
theorem C4_single_mode_one_unit (fn : File) (indent : List Byte) (w : World)
    (h : fn.readErr = none) :
    ∃ (status : Nat) (w' : World),
      processSingularFile fn indent w = .ok (status, w') ∧
      w'.units = w.units ++ [(fn.data.filter (fun c => c ≠ 10), 1)] ∧
      (10 : Byte) ∉ fn.data.filter (fun c => c ≠ 10) ∧
      (fn.data = str "\x7b\n\"a\":1\n\x7d" →
        w'.units = w.units ++ [(str "\x7b\"a\":1\x7d", 1)]) := by
  have hr : (ReadAll fn).2 = none := by simp [ReadAll, h]
  have hd : (ReadAll fn).1 = fn.data := rfl
  have key : ∃ (status : Nat) (w' : World),
      processSingularFile fn indent w = .ok (status, w') ∧
      w'.units = w.units ++ [(fn.data.filter (fun c => c ≠ 10), 1)] := by
    unfold processSingularFile
    simp only [hr, hd, Join_Split, ne_eq, not_true_eq_false, if_false]
    rcases indentAndPrint_cases [] (fn.data.filter (fun c => c ≠ 10)) 1 indent w with
      ⟨_, h2⟩ | ⟨e, window, _, _, h2⟩
    · simp only [ne_eq] at h2
      rw [h2]
      exact ⟨_, _, rfl, rfl⟩
    · simp only [ne_eq] at h2
      rw [h2]
      exact ⟨_, _, rfl, rfl⟩
  obtain ⟨status, w', h1, h2⟩ := key
  refine ⟨status, w', h1, h2, ?_, ?_⟩
  · simp [List.mem_filter]
  · intro hdata
    rw [h2, hdata]
    rfl

/-- C4, at a concrete input: the file `{\n"a":1\n}` read without error. -/
theorem C4_single_mode_one_unit_witness :
    ∃ (status : Nat) (w' : World),
      processSingularFile { data := str "\x7b\n\"a\":1\n\x7d", readErr := none } (str "  ")
          { stdout := [], stderr := [], units := [], opened := [] } = .ok (status, w') ∧
      w'.units = [] ++ [((str "\x7b\n\"a\":1\n\x7d").filter (fun c => c ≠ 10), 1)] ∧
      (10 : Byte) ∉ (str "\x7b\n\"a\":1\n\x7d").filter (fun c => c ≠ 10) ∧
      (str "\x7b\n\"a\":1\n\x7d" = str "\x7b\n\"a\":1\n\x7d" →
        w'.units = [] ++ [(str "\x7b\"a\":1\x7d", 1)]) :=
  C4_single_mode_one_unit { data := str "\x7b\n\"a\":1\n\x7d", readErr := none } (str "  ")
    { stdout := [], stderr := [], units := [], opened := [] } rfl

/-! ## The context line of a diagnostic -/

/-- C7, as stated, fails: for the unit `{"a":}` with the error at offset 6 the
window is clamped at both ends (`begin = 0` because `6 - 15` does not lie past
index 0, `end = len(js)` because `0 + 30` exceeds 6), and the context line
carries neither ellipsis. -/
theorem C7_clamped_window_has_no_ellipsis :
    (6 : Int) - 15 ≤ 0 ∧
    (contextWindow 6 (str "\x7b\"a\":\x7d").length).begin = 0 ∧
    (contextWindow 6 (str "\x7b\"a\":\x7d").length).begin + 30 > (str "\x7b\"a\":\x7d").length ∧
    (contextWindow 6 (str "\x7b\"a\":\x7d").length).endIdx = (str "\x7b\"a\":\x7d").length ∧
    (contextWindow 6 (str "\x7b\"a\":\x7d").length).pfx ≠ str "..." ∧
    (contextWindow 6 (str "\x7b\"a\":\x7d").length).sfx ≠ str "..." ∧
    malformedJSON (.syntaxError { char := some 125, context := "looking for beginning of value",
                                  Offset := 6 })
        (str "\x7b\"a\":\x7d") 3 { stdout := [], stderr := [], units := [], opened := [] } =
      .ok { stdout := [],
            stderr := [Diag.brokenAt 3 6 (.syntaxError
                         { char := some 125, context := "looking for beginning of value",
                           Offset := 6 }),
                       Diag.context [] (str "\x7b\"a\":\x7d") []],
            units := [], opened := [] } := by
  decide

/-- C7, amended: the context line starts with `...` exactly when the window
does not start at byte 0 (offset above 15, `begin = offset - 15`) and has no
such start when `begin` was clamped to 0; it ends with `...` when the window
ends before the end of the unit (`begin + 30 < len(js)`) and has no such end
when `end` was clamped to `len(js)` (`begin + 30 > len(js)`). -/
theorem C7_ellipsis_marks_cut_text (js : List Byte) (e : SyntaxError) (lineNum : Nat)
    (w : World) (h0 : 0 ≤ e.Offset) (h1 : e.Offset ≤ js.length) :
    ∃ window pfx sfx,
      malformedJSON (.syntaxError e) js lineNum w =
        .ok { w with stderr := w.stderr ++
          [Diag.brokenAt lineNum e.Offset (.syntaxError e),
           Diag.context pfx (TrimRight window [13, 10]) sfx] } ∧
      pfx = (contextWindow e.Offset js.length).pfx ∧
      sfx = (contextWindow e.Offset js.length).sfx ∧
      (15 < e.Offset → (contextWindow e.Offset js.length).begin = e.Offset - 15 ∧
        pfx = str "...") ∧
      (e.Offset ≤ 15 → (contextWindow e.Offset js.length).begin = 0 ∧ pfx = str "") ∧
      ((contextWindow e.Offset js.length).begin + 30 < js.length →
        (contextWindow e.Offset js.length).endIdx =
          (contextWindow e.Offset js.length).begin + 30 ∧ sfx = str "...") ∧
      ((contextWindow e.Offset js.length).begin + 30 > js.length →
        (contextWindow e.Offset js.length).endIdx = js.length ∧ sfx = str "") := by
  obtain ⟨window, _, hm⟩ := malformedJSON_ok e js lineNum w h0 h1
  refine ⟨window, _, _, hm, rfl, rfl, ?_, ?_, ?_, ?_⟩
  · intro h
    rw [contextWindow_begin, contextWindow_pfx]
    simp [h]
  · intro h
    have h' : ¬ (e.Offset > 15) := by omega
    rw [contextWindow_begin, contextWindow_pfx]
    simp [h']
  · intro h
    have h' : ¬ ((contextWindow e.Offset js.length).begin + 30 > js.length) := by omega
    rw [contextWindow_endIdx, contextWindow_sfx]
    simp only [h', if_false, and_self]
  · intro h
    rw [contextWindow_endIdx, contextWindow_sfx]
    simp only [h, if_true, and_self]

/-- C7 amended, at a concrete input: the unit `{"a":}` with the error at
offset 6. -/
theorem C7_ellipsis_marks_cut_text_witness :
    ∃ window pfx sfx,
      malformedJSON (.syntaxError { char := some 125, context := "", Offset := 6 })
          (str "\x7b\"a\":\x7d") 3 { stdout := [], stderr := [], units := [], opened := [] } =
        .ok { stdout := [], units := [], opened := [],
              stderr := [] ++
          [Diag.brokenAt 3 6 (.syntaxError { char := some 125, context := "", Offset := 6 }),
           Diag.context pfx (TrimRight window [13, 10]) sfx] } ∧
      pfx = (contextWindow 6 (str "\x7b\"a\":\x7d").length).pfx ∧
      sfx = (contextWindow 6 (str "\x7b\"a\":\x7d").length).sfx ∧
      ((15 : Int) < 6 → (contextWindow 6 (str "\x7b\"a\":\x7d").length).begin = 6 - 15 ∧
        pfx = str "...") ∧
      ((6 : Int) ≤ 15 → (contextWindow 6 (str "\x7b\"a\":\x7d").length).begin = 0 ∧ pfx = str "") ∧
      ((contextWindow 6 (str "\x7b\"a\":\x7d").length).begin + 30 < (str "\x7b\"a\":\x7d").length →
        (contextWindow 6 (str "\x7b\"a\":\x7d").length).endIdx =
          (contextWindow 6 (str "\x7b\"a\":\x7d").length).begin + 30 ∧ sfx = str "...") ∧
      ((contextWindow 6 (str "\x7b\"a\":\x7d").length).begin + 30 > (str "\x7b\"a\":\x7d").length →
        (contextWindow 6 (str "\x7b\"a\":\x7d").length).endIdx = (str "\x7b\"a\":\x7d").length ∧
          sfx = str "") :=
  C7_ellipsis_marks_cut_text (str "\x7b\"a\":\x7d")
    { char := some 125, context := "", Offset := 6 } 3
    { stdout := [], stderr := [], units := [], opened := [] } (by decide) (by decide)

/-- C8: for every unit and every syntax-error offset between 0 and its length
the window satisfies `0 ≤ begin ≤ end ≤ len(js)`, the slice `js[begin:end]`
is in range, `malformedJSON` returns, and `indentAndPrint` returns status 1 on
a unit that `json.Indent` rejects. -/
theorem C8_reporting_never_panics (js : List Byte) (Offset : Int) (h0 : 0 ≤ Offset)
    (h1 : Offset ≤ js.length) :
    0 ≤ (contextWindow Offset js.length).begin ∧
    (contextWindow Offset js.length).begin ≤ (contextWindow Offset js.length).endIdx ∧
    (contextWindow Offset js.length).endIdx ≤ js.length ∧
    (∃ window, slice js (contextWindow Offset js.length).begin
        (contextWindow Offset js.length).endIdx = some window) ∧
    (∀ (char : Option Byte) (context : String) (lineNum : Nat) (w : World),
      ∃ w', malformedJSON (.syntaxError { char := char, context := context, Offset := Offset })
        js lineNum w = .ok w') ∧
    (∀ (buf indent : List Byte) (lineNum : Nat) (w : World),
      (Indent buf js [] indent).2 ≠ none →
        ∃ buf' w', indentAndPrint buf js lineNum indent w = .ok (1, buf', w')) := by
  have hb := contextWindow_bounds Offset js.length h0 h1
  refine ⟨hb.1, hb.2.1, hb.2.2, ?_, ?_, ?_⟩
  · obtain ⟨window, hw, _⟩ := malformedJSON_ok
      { char := none, context := "", Offset := Offset } js 0
      { stdout := [], stderr := [], units := [], opened := [] } h0 h1
    exact ⟨window, hw⟩
  · intro char context lineNum w
    obtain ⟨window, _, hm⟩ := malformedJSON_ok
      { char := char, context := context, Offset := Offset } js lineNum w h0 h1
    exact ⟨_, hm⟩
  · intro buf indent lineNum w hne
    rcases indentAndPrint_cases buf js lineNum indent w with ⟨h2, _⟩ | ⟨e, window, _, _, h2⟩
    · exact absurd h2 hne
    · exact ⟨_, _, h2⟩

/-- C8, at a concrete input: the unit `{"a":}` and offset 6. -/
theorem C8_reporting_never_panics_witness :
    0 ≤ (contextWindow 6 (str "\x7b\"a\":\x7d").length).begin ∧
    (contextWindow 6 (str "\x7b\"a\":\x7d").length).begin ≤
      (contextWindow 6 (str "\x7b\"a\":\x7d").length).endIdx ∧
    (contextWindow 6 (str "\x7b\"a\":\x7d").length).endIdx ≤ (str "\x7b\"a\":\x7d").length ∧
    (∃ window, slice (str "\x7b\"a\":\x7d") (contextWindow 6 (str "\x7b\"a\":\x7d").length).begin
        (contextWindow 6 (str "\x7b\"a\":\x7d").length).endIdx = some window) ∧
    (∀ (char : Option Byte) (context : String) (lineNum : Nat) (w : World),
      ∃ w', malformedJSON (.syntaxError { char := char, context := context, Offset := 6 })
        (str "\x7b\"a\":\x7d") lineNum w = .ok w') ∧
    (∀ (buf indent : List Byte) (lineNum : Nat) (w : World),
      (Indent buf (str "\x7b\"a\":\x7d") [] indent).2 ≠ none →
        ∃ buf' w', indentAndPrint buf (str "\x7b\"a\":\x7d") lineNum indent w = .ok (1, buf', w')) :=
  C8_reporting_never_panics (str "\x7b\"a\":\x7d") 6 (by decide) (by decide)

theorem TrimRight_split (s cutset : List Byte) :
    ∃ t, s = TrimRight s cutset ++ t ∧ ∀ c ∈ t, c ∈ cutset := by
  unfold TrimRight
  induction s using List.reverseRecOn with
  | nil => exact ⟨[], by simp⟩
  | append_singleton l a ih =>
    obtain ⟨t, ht, hc⟩ := ih
    rw [List.rdropWhile_concat]
    split
    · rename_i ha
      refine ⟨t ++ [a], ?_, ?_⟩
      · rw [← List.append_assoc, ← ht]
      · intro c hcm
        rcases List.mem_append.mp hcm with h | h
        · exact hc c h
        · simp at h
          subst h
          simpa using ha
    · exact ⟨[], by simp, by simp⟩

theorem TrimRight_getElem? (s cutset : List Byte) (i : Nat) (x : Byte)
    (h : s[i]? = some x) (hx : x ∉ cutset) : (TrimRight s cutset)[i]? = some x := by
  obtain ⟨t, ht, hc⟩ := TrimRight_split s cutset
  by_cases hi : i < (TrimRight s cutset).length
  · rw [ht, List.getElem?_append_left hi] at h
    exact h
  · rw [ht, List.getElem?_append_right (by omega)] at h
    have : x ∈ t := by
      rw [List.mem_iff_getElem?]
      exact ⟨_, h⟩
    exact absurd (hc x this) hx

theorem slice_eq (js : List Byte) (b e : Int) (window : List Byte)
    (h : slice js b e = some window) :
    0 ≤ b ∧ b ≤ e ∧ e ≤ js.length ∧ window = (js.drop b.toNat).take (e.toNat - b.toNat) := by
  unfold slice at h
  split at h
  · rename_i hb
    simp at h
    exact ⟨hb.1, hb.2.1, hb.2.2, h.symm⟩
  · simp at h

/-- C10, as stated, fails: the line `"a` with a CRLF line ending is the unit
`"a\r\n`; `json.Indent` rejects it at offset 3, the offending byte `js[2]` is
the carriage return, and the snippet on the context line is `"a`, which does
not reach index 2 and holds no carriage return. -/
theorem C10_snippet_misses_trailing_CR :
    (Indent [] (str "\"a\r\n") [] (str "  ")).2 =
      some { char := some 13, context := "in string literal", Offset := 3 } ∧
    (str "\"a\r\n")[2]? = some 13 ∧
    malformedJSON (.syntaxError { char := some 13, context := "in string literal", Offset := 3 })
        (str "\"a\r\n") 1 { stdout := [], stderr := [], units := [], opened := [] } =
      .ok { stdout := [],
            stderr := [Diag.brokenAt 1 3 (.syntaxError
                         { char := some 13, context := "in string literal", Offset := 3 }),
                       Diag.context [] (str "\"a") []],
            units := [], opened := [] } ∧
    (str "\"a")[2]? = none ∧
    (13 : Byte) ∉ str "\"a" := by
  decide

/-- C10, amended: for a syntax error at an offset between 1 and the length of
the unit, the window `js[begin:end]` is a contiguous part of the unit of at
most 30 bytes that holds the offending byte `js[offset-1]`, and starts 15 bytes
before the offset, or at byte 0 when the offset is at most 15.  The snippet on
the context line is the window without its trailing carriage returns and
newlines; it is again a contiguous part of the unit of at most 30 bytes, and it
holds the offending byte whenever that byte is neither a carriage return nor a
newline. -/
theorem C10_snippet_around_offending_byte (js : List Byte) (Offset : Int) (h1 : 1 ≤ Offset)
    (h2 : Offset ≤ js.length) :
    ∃ window snippet,
      slice js (contextWindow Offset js.length).begin (contextWindow Offset js.length).endIdx =
        some window ∧
      snippet = TrimRight window [13, 10] ∧
      (∀ (char : Option Byte) (context : String) (lineNum : Nat) (w : World),
        malformedJSON (.syntaxError { char := char, context := context, Offset := Offset })
            js lineNum w =
          .ok { w with stderr := w.stderr ++
            [Diag.brokenAt lineNum Offset
               (.syntaxError { char := char, context := context, Offset := Offset }),
             Diag.context (contextWindow Offset js.length).pfx snippet
               (contextWindow Offset js.length).sfx] }) ∧
      (contextWindow Offset js.length).begin = (if Offset > 15 then Offset - 15 else 0) ∧
      window <:+: js ∧ window.length ≤ 30 ∧
      (contextWindow Offset js.length).begin ≤ Offset - 1 ∧
      Offset - 1 < (contextWindow Offset js.length).endIdx ∧
      (∃ x, js[(Offset - 1).toNat]? = some x ∧
        window[(Offset - 1 - (contextWindow Offset js.length).begin).toNat]? = some x ∧
        (x ≠ 13 → x ≠ 10 →
          snippet[(Offset - 1 - (contextWindow Offset js.length).begin).toNat]? = some x)) ∧
      (∃ t, window = snippet ++ t ∧ ∀ c ∈ t, c = 13 ∨ c = 10) ∧
      snippet <:+: js ∧ snippet.length ≤ 30 := by
  have h0 : 0 ≤ Offset := by omega
  obtain ⟨window, hw, _⟩ := malformedJSON_ok
    { char := none, context := "", Offset := Offset } js 0
    { stdout := [], stderr := [], units := [], opened := [] } h0 h2
  simp only [] at hw
  obtain ⟨hb0, hbe, hel, hwin⟩ := slice_eq js _ _ window hw
  have hbeg := contextWindow_begin Offset js.length
  have hend := contextWindow_endIdx Offset js.length
  have hlo : (contextWindow Offset js.length).begin ≤ Offset - 1 := by
    rw [hbeg]; split <;> omega
  have hhi : Offset - 1 < (contextWindow Offset js.length).endIdx := by
    rw [hend]; split
    · omega
    · rw [hbeg]; split <;> omega
  have hlen : window.length ≤ 30 := by
    rw [hwin, List.length_take]
    have : (contextWindow Offset js.length).endIdx ≤ (contextWindow Offset js.length).begin + 30 := by
      rw [hend]; split <;> omega
    omega
  have hsub : window <:+: js := by
    rw [hwin]
    exact (List.take_prefix _ _).isInfix.trans (List.drop_suffix _ _).isInfix
  obtain ⟨t, ht, hc⟩ := TrimRight_split window [13, 10]
  have hpre : TrimRight window [13, 10] <+: window := ⟨t, ht.symm⟩
  have hidx : (Offset - 1).toNat < js.length := by omega
  have hx : js[(Offset - 1).toNat]? = some (js[(Offset - 1).toNat]) :=
    List.getElem?_eq_getElem hidx
  have hwx : window[(Offset - 1 - (contextWindow Offset js.length).begin).toNat]? =
      some (js[(Offset - 1).toNat]) := by
    rw [hwin, List.getElem?_take_of_lt (by omega), List.getElem?_drop, ← hx]
    congr 1
    omega
  refine ⟨window, TrimRight window [13, 10], hw, rfl, ?_, hbeg, hsub, hlen, hlo, hhi,
    ⟨_, hx, hwx, ?_⟩, ⟨t, ht, ?_⟩, hpre.isInfix.trans hsub, le_trans hpre.length_le hlen⟩
  · intro char context lineNum w
    obtain ⟨window', hw', hm⟩ := malformedJSON_ok
      { char := char, context := context, Offset := Offset } js lineNum w h0 h2
    simp only [] at hw'
    rw [hw] at hw'
    cases hw'
    exact hm
  · intro hx13 hx10
    refine TrimRight_getElem? window [13, 10] _ _ hwx ?_
    intro hmem
    rcases List.mem_cons.mp hmem with h | h
    · exact hx13 h
    · exact hx10 (List.mem_singleton.mp h)
  · intro c hcm
    simpa using hc c hcm

/-- C10 amended, at a concrete input: the unit `{"a":}` with the error at
offset 6. -/
theorem C10_snippet_around_offending_byte_witness :
    ∃ window snippet,
      slice (str "\x7b\"a\":\x7d") (contextWindow 6 (str "\x7b\"a\":\x7d").length).begin
        (contextWindow 6 (str "\x7b\"a\":\x7d").length).endIdx = some window ∧
      snippet = TrimRight window [13, 10] ∧
      (∀ (char : Option Byte) (context : String) (lineNum : Nat) (w : World),
        malformedJSON (.syntaxError { char := char, context := context, Offset := 6 })
            (str "\x7b\"a\":\x7d") lineNum w =
          .ok { w with stderr := w.stderr ++
            [Diag.brokenAt lineNum 6
               (.syntaxError { char := char, context := context, Offset := 6 }),
             Diag.context (contextWindow 6 (str "\x7b\"a\":\x7d").length).pfx snippet
               (contextWindow 6 (str "\x7b\"a\":\x7d").length).sfx] }) ∧
      (contextWindow 6 (str "\x7b\"a\":\x7d").length).begin = (if (6 : Int) > 15 then 6 - 15 else 0) ∧
      window <:+: str "\x7b\"a\":\x7d" ∧ window.length ≤ 30 ∧
      (contextWindow 6 (str "\x7b\"a\":\x7d").length).begin ≤ 6 - 1 ∧
      6 - 1 < (contextWindow 6 (str "\x7b\"a\":\x7d").length).endIdx ∧
      (∃ x, (str "\x7b\"a\":\x7d")[((6 : Int) - 1).toNat]? = some x ∧
        window[(6 - 1 - (contextWindow 6 (str "\x7b\"a\":\x7d").length).begin).toNat]? = some x ∧
        (x ≠ 13 → x ≠ 10 →
          snippet[(6 - 1 - (contextWindow 6 (str "\x7b\"a\":\x7d").length).begin).toNat]? = some x)) ∧
      (∃ t, window = snippet ++ t ∧ ∀ c ∈ t, c = 13 ∨ c = 10) ∧
      snippet <:+: str "\x7b\"a\":\x7d" ∧ snippet.length ≤ 30 :=
  C10_snippet_around_offending_byte (str "\x7b\"a\":\x7d") 6 (by decide) (by decide)

/-! ## The command line -/

/-- C9, at the failing input: a program found on the search path under the
one-byte name `j` and run with the help switch panics in `cmd[0:2]`; it writes
no usage line and does not exit with status 0. -/
theorem C9_help_panics_on_short_name :
    main { Args0 := str "j", help := true, single := false, Args := [], JSONPP_INDENT := [],
           OpenFile := fun _ => .error "no such file or directory",
           Stdin := { data := [], readErr := none } } = .fault .panic := by
  decide

/-- C6, at the failing input: with the arguments `missing ok.json`, where the
first path cannot be opened and the second holds `{"a":1}`, the open failure is
reported, the second file is opened and formatted, and the exit status is 0. -/
theorem C6_open_failure_status_overwritten :
    main { Args0 := str "jsonpp", help := false, single := false,
           Args := ["missing", "ok.json"], JSONPP_INDENT := [],
           OpenFile := fun name =>
             if name = "ok.json" then .ok { data := str "\x7b\"a\":1\x7d\n", readErr := none }
             else .error "open missing: no such file or directory",
           Stdin := { data := [], readErr := none } } =
      .ok (0, { stdout := str "\x7b\n  \"a\": 1\n\x7d\n",
                stderr := [Diag.error
                  (some (.other "open missing: no such file or directory"))],
                units := [(str "\x7b\"a\":1\x7d\n", 1)],
                opened := ["missing", "ok.json"] }) := by
  decide

/-! ## Line mode -/

theorem cutAt_some (l line rest : List Byte) (h : cutAt 10 l = some (line, rest)) :
    cutAfterNewlines l = line :: cutAfterNewlines rest ∧ rest.length < l.length ∧
      isLine line := by
  induction l generalizing line rest with
  | nil => simp [cutAt] at h
  | cons c cs ih =>
    unfold cutAt at h
    split at h
    · rename_i hc
      simp only [Option.some.injEq, Prod.mk.injEq] at h
      obtain ⟨h1, h2⟩ := h
      subst h1 h2 hc
      exact ⟨by simp [cutAfterNewlines], by simp, ⟨[], by simp⟩⟩
    · rename_i hc
      split at h
      · simp at h
      · rename_i line' rest' h'
        simp only [Option.some.injEq, Prod.mk.injEq] at h
        obtain ⟨h1, h2⟩ := h
        subst h1 h2
        obtain ⟨i1, i2, b, hb, hb'⟩ := ih line' rest' h'
        refine ⟨?_, by simp; omega, ⟨c :: b, by simp [hb], ?_⟩⟩
        · simp [cutAfterNewlines, hc, i1]
        · simp only [List.mem_cons, not_or]
          exact ⟨fun h => hc h.symm, hb'⟩

theorem cutAt_none (l : List Byte) (h : cutAt 10 l = none) :
    (10 : Byte) ∉ l ∧ cutAfterNewlines l = if l = [] then [] else [l] := by
  induction l with
  | nil => simp [cutAfterNewlines]
  | cons c cs ih =>
    unfold cutAt at h
    split at h
    · simp at h
    · rename_i hc
      split at h
      · rename_i h'
        obtain ⟨i1, i2⟩ := ih h'
        refine ⟨?_, ?_⟩
        · simp only [List.mem_cons, not_or]
          exact ⟨fun h => hc h.symm, i1⟩
        · by_cases hcs : cs = []
          · subst hcs
            simp [cutAfterNewlines, hc]
          · simp only [hcs, if_false] at i2
            simp [cutAfterNewlines, hc, i2]
      · simp at h

theorem numberFrom_append (us vs : List (List Byte)) :
    ∀ n, numberFrom n (us ++ vs) = numberFrom n us ++ numberFrom (n + us.length) vs := by
  induction us with
  | nil => intro n; simp [numberFrom]
  | cons u us ih =>
    intro n
    simp [numberFrom, ih, Nat.add_assoc, Nat.add_comm 1]

/-- One more accepted unit in front of a source run. -/
theorem sourceRun_cons (indent u : List Byte) (us : List (List Byte)) (n : Nat) (w : World)
    (status : Nat) (w' : World) (hu : accepted indent u)
    (h : sourceRun indent us (n + 1)
      { w with units := w.units ++ [(u, n)], stdout := w.stdout ++ rendering indent u }
      status w') :
    sourceRun indent (u :: us) n w status w' := by
  obtain ⟨h1, h2, h3⟩ := h
  refine ⟨by simpa [numberFrom] using h1, h2, ?_⟩
  rcases h3 with ⟨hs, ha, ho, he⟩ | ⟨hs, us1, v, e, window, hus, ha, hv, hw, ho, he⟩ |
      ⟨hs, ha, ho, he⟩
  · left
    refine ⟨hs, ?_, by simpa using ho, he⟩
    intro x hx
    rcases List.mem_cons.mp hx with hx | hx
    · subst hx; exact hu
    · exact ha x hx
  · right; left
    refine ⟨hs, u :: us1, v, e, window, by simp [hus], ?_, hv, hw, by simpa using ho, ?_⟩
    · intro x hx
      rcases List.mem_cons.mp hx with hx | hx
      · subst hx; exact hu
      · exact ha x hx
    · simpa [Nat.add_assoc, Nat.add_comm 1] using he
  · right; right
    refine ⟨hs, ?_, by simpa using ho, he⟩
    intro x hx
    rcases List.mem_cons.mp hx with hx | hx
    · subst hx; exact hu
    · exact ha x hx

/-- A source run that ends with the failure of its first unit. -/
theorem sourceRun_fail (indent u : List Byte) (n : Nat) (w : World) (e : SyntaxError)
    (window : List Byte) (he : (Indent [] u [] indent).2 = some e)
    (hw : slice u (contextWindow e.Offset u.length).begin
      (contextWindow e.Offset u.length).endIdx = some window) :
    sourceRun indent [u] n w 1
      { w with units := w.units ++ [(u, n)],
               stderr := w.stderr ++ diagnostic u n e window } := by
  refine ⟨by simp [numberFrom], rfl, ?_⟩
  right; left
  exact ⟨rfl, [], u, e, window, by simp, by simp, he, hw, by simp, by simp⟩

/-- The loop of `processMultipleFile` returns when it is given more iterations
than there are bytes left, and it hands the formatter the first units of the
cut input, all of them when it returns status 0. -/
theorem processLoop_run (indent : List Byte) :
    ∀ (fuel : Nat) (rest : List Byte) (readErr : Option String) (lineNum : Nat) (w : World),
      rest.length < fuel →
      ∃ status w' us,
        processLoop indent fuel { rest := rest, readErr := readErr } [] lineNum w =
          .ok (status, w') ∧
        us <+: cutAfterNewlines rest ∧
        (status = 0 → us = cutAfterNewlines rest) ∧
        sourceRun indent us lineNum w status w' := by
  intro fuel
  induction fuel with
  | zero => intro rest readErr lineNum w h; omega
  | succ fuel ih =>
    intro rest readErr lineNum w hlen
    unfold processLoop
    cases hcut : cutAt 10 rest with
    | some p =>
      obtain ⟨line, rest'⟩ := p
      obtain ⟨hc1, hc2, _⟩ := cutAt_some rest line rest' hcut
      simp only [Reader.ReadBytes, hcut, ne_eq, not_true_eq_false, false_and, if_false,
        reduceCtorEq]
      rcases indentAndPrint_cases [] line lineNum indent w with
        ⟨hok, hq⟩ | ⟨e, window, herr, hwin, hq⟩
      · rw [hq]
        simp only [gt_iff_lt, lt_self_iff_false, if_false]
        obtain ⟨status, w', us, hrun, hpre, hall, hsrc⟩ :=
          ih rest' readErr (lineNum + 1)
            { w with units := w.units ++ [(line, lineNum)],
                     stdout := w.stdout ++ (Indent [] line [] indent).1 } (by omega)
        refine ⟨status, w', line :: us, hrun, ?_, ?_, ?_⟩
        · rw [hc1]
          obtain ⟨t, ht⟩ := hpre
          exact ⟨t, by simp [← ht]⟩
        · intro hs
          rw [hc1, hall hs]
        · exact sourceRun_cons indent line us lineNum w status w' hok hsrc
      · rw [hq]
        simp only [gt_iff_lt, Nat.lt_one_iff, one_ne_zero, Nat.zero_lt_one, if_true]
        refine ⟨1, _, [line], rfl, ?_, by simp, sourceRun_fail indent line lineNum w e window herr hwin⟩
        rw [hc1]
        exact ⟨cutAfterNewlines rest', by simp⟩
    | none =>
      obtain ⟨_, hc2⟩ := cutAt_none rest hcut
      cases hre : readErr with
      | some msg =>
        simp only [Reader.ReadBytes, hcut, ne_eq, reduceCtorEq, not_false_eq_true, and_self,
          if_true, Option.some.injEq]
        refine ⟨2, _, [], rfl, List.nil_prefix, by simp, ?_⟩
        refine ⟨by simp [numberFrom, printError], rfl, ?_⟩
        right; right
        exact ⟨rfl, by simp, by simp [printError], _, rfl⟩
      | none =>
        simp only [Reader.ReadBytes, hcut, ne_eq, reduceCtorEq, not_false_eq_true,
          not_true_eq_false, and_false, if_false, true_and, List.length_eq_zero]
        by_cases hnil : rest = []
        · simp only [hnil, if_true]
          refine ⟨0, w, [], rfl, List.nil_prefix, by simp [cutAfterNewlines], ?_⟩
          refine ⟨by simp [numberFrom], rfl, ?_⟩
          left
          exact ⟨rfl, by simp, by simp, rfl⟩
        · simp only [hnil, if_false] at hc2 ⊢
          rcases indentAndPrint_cases [] rest lineNum indent w with
            ⟨hok, hq⟩ | ⟨e, window, herr, hwin, hq⟩
          · rw [hq]
            simp only [gt_iff_lt, lt_self_iff_false, if_false, if_true]
            refine ⟨0, _, [rest], rfl, by rw [hc2], by simp [hc2], ?_⟩
            refine ⟨by simp [numberFrom], rfl, ?_⟩
            left
            exact ⟨rfl, by simpa using hok, by simp [rendering], rfl⟩
          · rw [hq]
            simp only [gt_iff_lt, Nat.zero_lt_one, if_true]
            exact ⟨1, _, [rest], rfl, by rw [hc2], by simp,
              sourceRun_fail indent rest lineNum w e window herr hwin⟩

/-- The loop of `processMultipleFile` on a stream that ends with a clean
`io.EOF` and whose units all pass `json.Indent`: it returns status 0, having
handed the formatter every unit of the cut input and written every rendering. -/
theorem processLoop_accepts (indent : List Byte) :
    ∀ (fuel : Nat) (rest : List Byte) (lineNum : Nat) (w : World),
      rest.length < fuel →
      (∀ u ∈ cutAfterNewlines rest, (Indent [] u [] indent).2 = none) →
      processLoop indent fuel { rest := rest, readErr := none } [] lineNum w =
        .ok (0, { w with
          units := w.units ++ numberFrom lineNum (cutAfterNewlines rest),
          stdout := w.stdout ++
            ((cutAfterNewlines rest).map (fun u => (Indent [] u [] indent).1)).flatten }) := by
  intro fuel
  induction fuel with
  | zero => intro rest lineNum w h; omega
  | succ fuel ih =>
    intro rest lineNum w hlen hacc
    unfold processLoop
    cases hcut : cutAt 10 rest with
    | some p =>
      obtain ⟨line, rest'⟩ := p
      obtain ⟨hc1, hc2, _⟩ := cutAt_some rest line rest' hcut
      simp only [Reader.ReadBytes, hcut, ne_eq, not_true_eq_false, false_and, if_false,
        reduceCtorEq]
      rw [hc1] at hacc
      rcases indentAndPrint_cases [] line lineNum indent w with
        ⟨hok, hq⟩ | ⟨e, window, herr, hwin, hq⟩
      · rw [hq]
        simp only [gt_iff_lt, lt_self_iff_false, if_false]
        rw [ih rest' (lineNum + 1) _ (by omega) (fun u hu => hacc u (List.mem_cons_of_mem _ hu)),
          hc1]
        simp [numberFrom, List.append_assoc]
      · rw [hacc line (List.mem_cons_self _ _)] at herr
        simp at herr
    | none =>
      obtain ⟨_, hc2⟩ := cutAt_none rest hcut
      simp only [Reader.ReadBytes, hcut, ne_eq, reduceCtorEq, not_false_eq_true,
        not_true_eq_false, and_false, if_false, true_and, List.length_eq_zero]
      by_cases hnil : rest = []
      · subst hnil
        simp [cutAfterNewlines, numberFrom]
      · simp only [hnil, if_false] at hc2 ⊢
        rw [hc2] at hacc
        rcases indentAndPrint_cases [] rest lineNum indent w with
          ⟨hok, hq⟩ | ⟨e, window, herr, hwin, hq⟩
        · rw [hq, hc2]
          simp [numberFrom]
        · rw [hacc rest (List.mem_singleton_self _)] at herr
          simp at herr

theorem cutAfterNewlines_flatten (l : List Byte) : (cutAfterNewlines l).flatten = l := by
  induction l with
  | nil => rfl
  | cons c cs ih =>
    unfold cutAfterNewlines
    split
    · rename_i hc
      simp [ih, hc]
    · split
      · rename_i h
        rw [h] at ih
        simp at ih
        simp [← ih]
      · rename_i u us h
        rw [h] at ih
        simp only [List.flatten_cons] at ih
        simp [ih]

/-- The units of the cut input: all but the last are lines, and the last is a
line or a non-empty tail without newline. -/
theorem cutAfterNewlines_shape (l : List Byte) :
    cutAfterNewlines l = [] ∨
    ∃ init last, cutAfterNewlines l = init ++ [last] ∧ (∀ u ∈ init, isLine u) ∧
      (isLine last ∨ (last ≠ [] ∧ (10 : Byte) ∉ last)) := by
  induction l with
  | nil => left; rfl
  | cons c cs ih =>
    right
    unfold cutAfterNewlines
    split
    · rename_i hc
      subst hc
      rcases ih with h | ⟨init, last, h, hi, hl⟩
      · exact ⟨[], [10], by simp [h], by simp, Or.inl ⟨[], by simp⟩⟩
      · refine ⟨[10] :: init, last, by simp [h], ?_, hl⟩
        intro u hu
        rcases List.mem_cons.mp hu with hu | hu
        · subst hu; exact ⟨[], by simp⟩
        · exact hi u hu
    · rename_i hc
      split
      · exact ⟨[], [c], by simp, by simp,
          Or.inr ⟨by simp, by simp; exact fun h => hc h.symm⟩⟩
      · rename_i u us h
        rcases ih with h0 | ⟨init, last, h1, hi, hl⟩
        · rw [h] at h0; simp at h0
        · rw [h] at h1
          cases init with
          | nil =>
            simp only [List.nil_append, List.cons.injEq] at h1
            obtain ⟨h2, h3⟩ := h1
            subst h2 h3
            refine ⟨[], c :: u, by simp, by simp, ?_⟩
            rcases hl with ⟨b, hb, hb'⟩ | ⟨_, hl⟩
            · left
              refine ⟨c :: b, by simp [hb], ?_⟩
              simp only [List.mem_cons, not_or]
              exact ⟨fun h => hc h.symm, hb'⟩
            · right
              refine ⟨by simp, ?_⟩
              simp only [List.mem_cons, not_or]
              exact ⟨fun h => hc h.symm, hl⟩
          | cons v init' =>
            simp only [List.cons_append, List.cons.injEq] at h1
            obtain ⟨h2, h3⟩ := h1
            subst h2
            refine ⟨(c :: u) :: init', last, by simp [h3], ?_, hl⟩
            intro x hx
            rcases List.mem_cons.mp hx with hx | hx
            · subst hx
              obtain ⟨b, hb, hb'⟩ := hi u (by simp)
              refine ⟨c :: b, by simp [hb], ?_⟩
              simp only [List.mem_cons, not_or]
              exact ⟨fun h => hc h.symm, hb'⟩
            · exact hi x (by simp [hx])

theorem isLine_ne_nil (u : List Byte) (h : isLine u) : u ≠ [] := by
  obtain ⟨b, hb, _⟩ := h
  simp [hb]

theorem numberFrom_snd (us : List (List Byte)) :
    ∀ n, (numberFrom n us).map Prod.snd = List.range' n us.length := by
  induction us with
  | nil => intro n; rfl
  | cons u us ih => intro n; simp [numberFrom, ih, List.range'_succ]

theorem numberFrom_fst (us : List (List Byte)) :
    ∀ n, (numberFrom n us).map Prod.fst = us := by
  induction us with
  | nil => intro n; rfl
  | cons u us ih => intro n; simp [numberFrom, ih]

theorem cutAfterNewlines_eq_nil (l : List Byte) (h : cutAfterNewlines l = []) : l = [] := by
  have := cutAfterNewlines_flatten l
  rw [h] at this
  simpa using this.symm

theorem cutAfterNewlines_append (p r : List Byte) :
    cutAfterNewlines (p ++ 10 :: r) = cutAfterNewlines (p ++ [10]) ++ cutAfterNewlines r := by
  induction p with
  | nil => simp [cutAfterNewlines]
  | cons c p ih =>
    by_cases hc : c = 10
    · simp [cutAfterNewlines, hc, ih]
    · cases h : cutAfterNewlines (p ++ [10]) with
      | nil => simpa using cutAfterNewlines_eq_nil _ h
      | cons u us =>
        rw [h] at ih
        simp [cutAfterNewlines, hc, ih, h]

theorem cutAfterNewlines_single (t : List Byte) (hne : t ≠ []) (hnl : (10 : Byte) ∉ t) :
    cutAfterNewlines t = [t] := by
  induction t with
  | nil => exact absurd rfl hne
  | cons c t ih =>
    simp only [List.mem_cons, not_or] at hnl
    have hc : c ≠ 10 := fun h => hnl.1 h.symm
    by_cases ht : t = []
    · subst ht
      simp [cutAfterNewlines, hc]
    · simp [cutAfterNewlines, hc, ih ht hnl.2]

/-- A non-empty tail without newline, after the last newline of the input or
as the whole input, is the last unit of the cut input. -/
theorem cutAfterNewlines_tail (pre tail : List Byte)
    (hpre : pre = [] ∨ ∃ p, pre = p ++ [10]) (hne : tail ≠ []) (hnl : (10 : Byte) ∉ tail) :
    (cutAfterNewlines (pre ++ tail)).getLast? = some tail := by
  rcases hpre with h | ⟨p, h⟩
  · subst h
    simp [cutAfterNewlines_single tail hne hnl]
  · subst h
    rw [List.append_assoc, List.singleton_append, cutAfterNewlines_append,
      cutAfterNewlines_single tail hne hnl]
    simp

/-- C3: line mode on a stream that ends with a clean end of input and whose
units, the input cut after each newline byte, all pass the formatter.  The run
returns status 0; it hands the formatter exactly those units, numbered
1, 2, 3, ... in order, writes their renderings in order to standard output and
nothing to standard error.  The concatenation of the units is the input, none
is empty, every unit but the last ends with its newline and holds no other,
and the last is such a line or a non-empty tail without newline, which is
processed like the others.  Empty input gives no unit, no output and status 0;
the input `{"a":1}\n{"b":2}\n` is cut into two units numbered 1 and 2. -/
theorem C3_line_mode_units (fn : File) (indent : List Byte) (w : World)
    (hread : fn.readErr = none)
    (hacc : ∀ u ∈ cutAfterNewlines fn.data, (Indent [] u [] indent).2 = none) :
    processMultipleFile fn indent w =
      .ok (0, { w with
        units := w.units ++ numberFrom 1 (cutAfterNewlines fn.data),
        stdout := w.stdout ++
          ((cutAfterNewlines fn.data).map (fun u => (Indent [] u [] indent).1)).flatten }) ∧
    (numberFrom 1 (cutAfterNewlines fn.data)).map Prod.fst = cutAfterNewlines fn.data ∧
    (numberFrom 1 (cutAfterNewlines fn.data)).map Prod.snd =
      List.range' 1 (cutAfterNewlines fn.data).length ∧
    (cutAfterNewlines fn.data).flatten = fn.data ∧
    (∀ u ∈ cutAfterNewlines fn.data, u ≠ []) ∧
    (∀ u ∈ (cutAfterNewlines fn.data).dropLast, ∃ b, u = b ++ [10] ∧ (10 : Byte) ∉ b) ∧
    (∀ u ∈ cutAfterNewlines fn.data, (∃ b, u = b ++ [10] ∧ (10 : Byte) ∉ b) ∨ (10 : Byte) ∉ u) ∧
    (∀ pre tail, fn.data = pre ++ tail → (pre = [] ∨ ∃ p, pre = p ++ [10]) → tail ≠ [] →
      (10 : Byte) ∉ tail → (cutAfterNewlines fn.data).getLast? = some tail) ∧
    processMultipleFile { data := [], readErr := none } indent w = .ok (0, w) ∧
    (fn.data = str "\x7b\"a\":1\x7d\n\x7b\"b\":2\x7d\n" →
      numberFrom 1 (cutAfterNewlines fn.data) =
        [(str "\x7b\"a\":1\x7d\n", 1), (str "\x7b\"b\":2\x7d\n", 2)]) := by
  have hrun := processLoop_accepts indent (fn.data.length + 1) fn.data 1 w
    (Nat.lt_succ_self _) hacc
  have hfn : NewReader fn = { rest := fn.data, readErr := none } := by
    simp [NewReader, hread]
  have hshape := cutAfterNewlines_shape fn.data
  refine ⟨?_, numberFrom_fst _ _, numberFrom_snd _ _, cutAfterNewlines_flatten _, ?_, ?_, ?_,
    ?_, ?_, ?_⟩
  · unfold processMultipleFile
    rw [hfn]
    exact hrun
  · intro u hu
    rcases hshape with h0 | ⟨init, last, h1, hi, hl⟩
    · rw [h0] at hu; simp at hu
    · rw [h1] at hu
      rcases List.mem_append.mp hu with hu | hu
      · exact isLine_ne_nil u (hi u hu)
      · simp only [List.mem_singleton] at hu
        subst hu
        rcases hl with hl | ⟨hl, _⟩
        · exact isLine_ne_nil u hl
        · exact hl
  · intro u hu
    rcases hshape with h0 | ⟨init, last, h1, hi, hl⟩
    · rw [h0] at hu; simp at hu
    · rw [h1, List.dropLast_concat] at hu
      exact hi u hu
  · intro u hu
    rcases hshape with h0 | ⟨init, last, h1, hi, hl⟩
    · rw [h0] at hu; simp at hu
    · rw [h1] at hu
      rcases List.mem_append.mp hu with hu | hu
      · exact Or.inl (hi u hu)
      · simp only [List.mem_singleton] at hu
        subst hu
        rcases hl with hl | ⟨_, hl⟩
        · exact Or.inl hl
        · exact Or.inr hl
  · intro pre tail hd hpre hne hnl
    rw [hd]
    exact cutAfterNewlines_tail pre tail hpre hne hnl
  · simp [processMultipleFile, processLoop, NewReader, Reader.ReadBytes, cutAt]
  · intro hd
    rw [hd]
    rfl

/-- C3, at a concrete input: the stream `[1]\n[2]`, which ends without a
newline, with the default indent: both units pass the formatter, the run
returns status 0 and hands the formatter the line and the tail, numbered 1
and 2. -/
theorem C3_line_mode_units_witness :
    (∀ u ∈ cutAfterNewlines (str "[1]\n[2]"), (Indent [] u [] (str "  ")).2 = none) ∧
    processMultipleFile { data := str "[1]\n[2]", readErr := none } (str "  ")
        { stdout := [], stderr := [], units := [], opened := [] } =
      .ok (0, { stdout := str "[\n  1\n]\n[\n  2\n]", stderr := [],
                units := [(str "[1]\n", 1), (str "[2]", 2)], opened := [] }) :=
  ⟨by decide,
   (C3_line_mode_units { data := str "[1]\n[2]", readErr := none } (str "  ")
    { stdout := [], stderr := [], units := [], opened := [] } rfl (by decide)).1⟩

/-! ## The first failing unit ends the run -/

theorem processSingularFile_run (indent : List Byte) (fn : File) (w : World) :
    ∃ status w' us,
      processSingularFile fn indent w = .ok (status, w') ∧
      sourceRun indent us 1 w status w' ∧ fromSource true fn us := by
  unfold processSingularFile
  cases hre : fn.readErr with
  | some msg =>
    simp only [ReadAll, hre, Option.map_some', ne_eq, reduceCtorEq, not_false_eq_true, if_true]
    refine ⟨2, _, [], rfl, ⟨by simp [numberFrom, printError], rfl, ?_⟩, ?_⟩
    · right; right
      exact ⟨rfl, by simp, by simp [printError], _, rfl⟩
    · simp [fromSource]
  | none =>
    simp only [ReadAll, hre, Option.map_none', ne_eq, not_true_eq_false, if_false, Join_Split]
    rcases indentAndPrint_cases [] (fn.data.filter (fun c => c ≠ 10)) 1 indent w with
      ⟨hok, hq⟩ | ⟨e, window, herr, hwin, hq⟩
    · simp only [ne_eq] at hq
      rw [hq]
      refine ⟨0, _, [fn.data.filter (fun c => c ≠ 10)], rfl, ⟨by simp [numberFrom], rfl, ?_⟩, ?_⟩
      · left
        exact ⟨rfl, by simpa [accepted] using hok, by simp [rendering], rfl⟩
      · simp [fromSource]
    · simp only [ne_eq] at hq
      rw [hq]
      refine ⟨1, _, [fn.data.filter (fun c => c ≠ 10)], rfl, ?_, ?_⟩
      · exact sourceRun_fail indent _ 1 w e window herr hwin
      · simp [fromSource]

theorem processMultipleFile_run (indent : List Byte) (fn : File) (w : World) :
    ∃ status w' us,
      processMultipleFile fn indent w = .ok (status, w') ∧
      sourceRun indent us 1 w status w' ∧ fromSource false fn us := by
  obtain ⟨status, w', us, hrun, hpre, _, hsrc⟩ :=
    processLoop_run indent (fn.data.length + 1) fn.data fn.readErr 1 w (Nat.lt_succ_self _)
  exact ⟨status, w', us, hrun, hsrc, by simpa [fromSource] using hpre⟩

theorem processFunc_run (single : Bool) (indent : List Byte) (fn : File) (w : World) :
    ∃ status w' us,
      (if single then processSingularFile else processMultipleFile) fn indent w =
        .ok (status, w') ∧
      sourceRun indent us 1 w status w' ∧ fromSource single fn us := by
  cases single with
  | true => simpa using processSingularFile_run indent fn w
  | false => simpa using processMultipleFile_run indent fn w

theorem numberFrom_mem (us : List (List Byte)) :
    ∀ n p, p ∈ numberFrom n us → p.1 ∈ us := by
  induction us with
  | nil => intro n p h; simp [numberFrom] at h
  | cons u us ih =>
    intro n p h
    simp only [numberFrom, List.mem_cons] at h
    rcases h with h | h
    · subst h; simp
    · exact List.mem_cons_of_mem _ (ih _ _ h)

theorem numberFrom_map (indent : List Byte) (us : List (List Byte)) :
    ∀ n, (numberFrom n us).map (fun p => rendering indent p.1) = us.map (rendering indent) := by
  induction us with
  | nil => intro n; rfl
  | cons u us ih => intro n; simp [numberFrom, ih]

/-- What one source leaves behind: with status 0 or 2 every unit so far was
accepted, with status 1 the run ended in the failure of its last unit. -/
theorem sourceRun_outcome (indent : List Byte) (single : Bool) (fn : File)
    (us : List (List Byte)) (w : World) (status : Nat) (w' : World)
    (hw : allRendered indent w) (h : sourceRun indent us 1 w status w')
    (hsrc : fromSource single fn us) :
    (status ≠ 1 ∧ (status = 0 → w'.stderr = w.stderr) ∧ allRendered indent w') ∨
    (status = 1 ∧ ∃ u k, endsInFailure indent single fn w w' u k) := by
  obtain ⟨hunits, _, hcase⟩ := h
  rcases hcase with ⟨hs, ha, ho, he⟩ | ⟨hs, us1, u, e, window, hus, ha, hu, hwin, ho, he⟩ |
      ⟨hs, ha, ho, he⟩
  · left
    refine ⟨by omega, fun _ => he, ?_, ?_⟩
    · intro p hp
      rw [hunits] at hp
      rcases List.mem_append.mp hp with hp | hp
      · exact hw.1 p hp
      · exact ha _ (numberFrom_mem us 1 p hp)
    · rw [ho, hunits, hw.2]
      simp [numberFrom_map]
  · right
    refine ⟨hs, u, us1.length + 1, us1, e, window, by rw [← hus]; exact hsrc, rfl, ?_, hw.1, ha,
      hu, hwin, ho, hw.2, by simpa [Nat.add_comm] using he⟩
    rw [hunits, hus, numberFrom_append]
    simp [numberFrom, Nat.add_comm]
  · left
    refine ⟨by omega, fun h0 => by omega, ?_, ?_⟩
    · intro p hp
      rw [hunits] at hp
      rcases List.mem_append.mp hp with hp | hp
      · exact hw.1 p hp
      · exact ha _ (numberFrom_mem us 1 p hp)
    · rw [ho, hunits, hw.2]
      simp [numberFrom_map]

/-- The loop over the file arguments: when some unit of the run was rejected,
the loop stopped at the file holding it, with status 1, and opened no later
path; before that file only open failures were reported. -/
theorem fileLoop_failure (single : Bool) (indent : List Byte)
    (OpenFile : String → Except String File) :
    ∀ (rest : List String) (exitStatus : Nat) (w : World) (status : Nat) (w' : World),
      fileLoop (if single then processSingularFile else processMultipleFile) indent OpenFile
        rest exitStatus w = .ok (status, w') →
      allRendered indent w →
      (∃ p ∈ w'.units, ¬ accepted indent p.1) →
      status = 1 ∧
      ∃ i name fn w1 u k,
        rest[i]? = some name ∧ OpenFile name = .ok fn ∧
        w'.opened = w.opened ++ rest.take (i + 1) ∧
        endsInFailure indent single fn w1 w' u k ∧
        ∃ errs, w1.stderr = w.stderr ++ errs ∧ ∀ d ∈ errs, ∃ err, d = Diag.error err := by
  intro rest
  induction rest with
  | nil =>
    intro exitStatus w status w' hrun hw hfail
    simp only [fileLoop, Outcome.ok.injEq, Prod.mk.injEq] at hrun
    obtain ⟨p, hp, hna⟩ := hfail
    rw [← hrun.2] at hp
    exact absurd (hw.1 p hp) hna
  | cons name rest ih =>
    intro exitStatus w status w' hrun hw hfail
    unfold fileLoop at hrun
    cases hopen : OpenFile name with
    | error err =>
      simp only [hopen] at hrun
      have hw2 : allRendered indent
          (printError (some (.other err)) { w with opened := w.opened ++ [name] }) := hw
      obtain ⟨hs, i, name', fn, w1, u, k, hi, hof, hop, hend, errs, he1, he2⟩ :=
        ih 1 _ status w' hrun hw2 hfail
      refine ⟨hs, i + 1, name', fn, w1, u, k, by simpa using hi, hof, ?_, hend,
        Diag.error (some (.other err)) :: errs, ?_, ?_⟩
      · rw [hop]; simp [printError]
      · rw [he1]; simp [printError]
      · intro d hd
        rcases List.mem_cons.mp hd with hd | hd
        · exact ⟨_, hd⟩
        · exact he2 d hd
    | ok fn =>
      simp only [hopen] at hrun
      obtain ⟨status1, w2, us, hpf, hsrc, hfrom⟩ :=
        processFunc_run single indent fn { w with opened := w.opened ++ [name] }
      rw [hpf] at hrun
      simp only [] at hrun
      have hw1 : allRendered indent { w with opened := w.opened ++ [name] } := hw
      have hopened : w2.opened = w.opened ++ [name] := hsrc.2.1
      rcases sourceRun_outcome indent single fn us _ status1 w2 hw1 hsrc hfrom with
        ⟨hne, hst, hall⟩ | ⟨hs1, u, k, hend⟩
      · by_cases hpos : status1 > 0
        · simp only [hpos, if_true, Outcome.ok.injEq, Prod.mk.injEq] at hrun
          obtain ⟨p, hp, hna⟩ := hfail
          rw [← hrun.2] at hp
          exact absurd (hall.1 p hp) hna
        · simp only [hpos, if_false] at hrun
          have h0 : status1 = 0 := by omega
          obtain ⟨hs, i, name', fn', w1, u, k, hi, hof, hop, hend, errs, he1, he2⟩ :=
            ih status1 w2 status w' hrun hall hfail
          refine ⟨hs, i + 1, name', fn', w1, u, k, by simpa using hi, hof, ?_, hend,
            errs, ?_, he2⟩
          · rw [hop, hopened]; simp
          · rw [he1, hst h0]
      · have hpos : status1 > 0 := by omega
        simp only [hpos, if_true, Outcome.ok.injEq, Prod.mk.injEq] at hrun
        obtain ⟨h1, h2⟩ := hrun
        subst h1 h2
        exact ⟨hs1, 0, name, fn, _, u, k, by simp, hopen, by rw [hopened]; simp, hend,
          [], by simp, by simp⟩

/-- C5: when some unit of a run fails validation, the exit status is 1 and the
run ended with that failure: the unit `u` is unit number `k` of its source
`fn`, it is the last unit handed to the formatter, every unit before it was
accepted, standard output holds the renderings of the earlier sources' units
and of units 1 to `k - 1` of `fn` and nothing for `u`, the diagnostic with line
number `k` is the last thing on standard error (before `fn` only open failures
were reported), and `fn` is standard input or the last path opened. -/
theorem C5_first_failing_unit_ends_run (env : Env) (status : Nat) (w : World)
    (hrun : main env = .ok (status, w))
    (hfail : ∃ p ∈ w.units,
      ¬ accepted (if env.JSONPP_INDENT = [] then str "  " else env.JSONPP_INDENT) p.1) :
    status = 1 ∧
    ∃ fn w1 u k,
      endsInFailure (if env.JSONPP_INDENT = [] then str "  " else env.JSONPP_INDENT)
        env.single fn w1 w u k ∧
      (∀ d ∈ w1.stderr, ∃ err, d = Diag.error err) ∧
      ((env.Args = [] ∧ fn = env.Stdin ∧ w.opened = []) ∨
       (∃ i name, env.Args[i]? = some name ∧ env.OpenFile name = .ok fn ∧
          w.opened = env.Args.take (i + 1))) := by
  unfold main at hrun
  simp only [] at hrun
  have hw0 : allRendered (if env.JSONPP_INDENT = [] then str "  " else env.JSONPP_INDENT)
      { stdout := [], stderr := [], units := [], opened := [] } := by
    simp [allRendered]
  by_cases hhelp : env.help = true
  · simp only [hhelp, if_true] at hrun
    split at hrun
    · simp at hrun
    · simp only [Outcome.ok.injEq, Prod.mk.injEq] at hrun
      obtain ⟨p, hp, _⟩ := hfail
      rw [← hrun.2] at hp
      simp at hp
  · simp only [hhelp, Bool.false_eq_true, if_false] at hrun
    by_cases hargs : env.Args.length > 0
    · simp only [hargs, if_true] at hrun
      obtain ⟨hs, i, name, fn, w1, u, k, hi, hof, hop, hend, errs, he1, he2⟩ :=
        fileLoop_failure env.single _ env.OpenFile env.Args 0 _ status w hrun hw0 hfail
      refine ⟨hs, fn, w1, u, k, hend, ?_, Or.inr ⟨i, name, hi, hof, by simpa using hop⟩⟩
      intro d hd
      rw [he1] at hd
      exact he2 d (by simpa using hd)
    · simp only [hargs, if_false] at hrun
      obtain ⟨status1, w2, us, hpf, hsrc, hfrom⟩ :=
        processFunc_run env.single
          (if env.JSONPP_INDENT = [] then str "  " else env.JSONPP_INDENT) env.Stdin
          { stdout := [], stderr := [], units := [], opened := [] }
      rw [hpf] at hrun
      simp only [Outcome.ok.injEq, Prod.mk.injEq] at hrun
      obtain ⟨h1, h2⟩ := hrun
      subst h1 h2
      rcases sourceRun_outcome _ env.single env.Stdin us _ status1 w2 hw0 hsrc hfrom with
        ⟨_, _, hall⟩ | ⟨hs1, u, k, hend⟩
      · obtain ⟨p, hp, hna⟩ := hfail
        exact absurd (hall.1 p hp) hna
      · refine ⟨hs1, env.Stdin, _, u, k, hend, by simp, Or.inl ⟨?_, rfl, ?_⟩⟩
        · exact List.length_eq_zero.mp (by omega)
        · rw [hsrc.2.1]

/-- C5, at a concrete input: standard input `{"a":1}\n{"b":}\n[1]` in line
mode; the second unit fails, the third is never formatted. -/
theorem C5_first_failing_unit_ends_run_witness :
    main { Args0 := str "jsonpp", help := false, single := false, Args := [],
           JSONPP_INDENT := [], OpenFile := fun _ => .error "no such file or directory",
           Stdin := { data := str "\x7b\"a\":1\x7d\n\x7b\"b\":\x7d\n[1]", readErr := none } } =
      .ok (1, { stdout := str "\x7b\n  \"a\": 1\n\x7d\n",
                stderr := diagnostic (str "\x7b\"b\":\x7d\n") 2
                  { char := some 125, context := "looking for beginning of value", Offset := 6 }
                  (str "\x7b\"b\":\x7d\n"),
                units := [(str "\x7b\"a\":1\x7d\n", 1), (str "\x7b\"b\":\x7d\n", 2)],
                opened := [] }) ∧
    ((1 : Nat) = 1 ∧
     ∃ fn w1 u k,
      endsInFailure (if ([] : List Byte) = [] then str "  " else []) false fn w1
        { stdout := str "\x7b\n  \"a\": 1\n\x7d\n",
          stderr := diagnostic (str "\x7b\"b\":\x7d\n") 2
            { char := some 125, context := "looking for beginning of value", Offset := 6 }
            (str "\x7b\"b\":\x7d\n"),
          units := [(str "\x7b\"a\":1\x7d\n", 1), (str "\x7b\"b\":\x7d\n", 2)],
          opened := [] } u k ∧
      (∀ d ∈ w1.stderr, ∃ err, d = Diag.error err) ∧
      ((([] : List String) = [] ∧ fn = { data := str "\x7b\"a\":1\x7d\n\x7b\"b\":\x7d\n[1]", readErr := none } ∧
          ([] : List String) = []) ∨
       (∃ i name, ([] : List String)[i]? = some name ∧
          (Except.error "no such file or directory" : Except String File) = .ok fn ∧
          ([] : List String) = ([] : List String).take (i + 1)))) :=
  ⟨by decide,
   C5_first_failing_unit_ends_run
    { Args0 := str "jsonpp", help := false, single := false, Args := [],
      JSONPP_INDENT := [], OpenFile := fun _ => .error "no such file or directory",
      Stdin := { data := str "\x7b\"a\":1\x7d\n\x7b\"b\":\x7d\n[1]", readErr := none } } 1
    { stdout := str "\x7b\n  \"a\": 1\n\x7d\n",
      stderr := diagnostic (str "\x7b\"b\":\x7d\n") 2
        { char := some 125, context := "looking for beginning of value", Offset := 6 }
        (str "\x7b\"b\":\x7d\n"),
      units := [(str "\x7b\"a\":1\x7d\n", 1), (str "\x7b\"b\":\x7d\n", 2)],
      opened := [] }
    (by decide)
    ⟨(str "\x7b\"b\":\x7d\n", 2), by decide, by unfold accepted; decide⟩⟩

/-! ## The scanner does not look at its byte count -/

theorem bytes_endTop (s : scanner) (b : Nat) (c : Byte) (v : ScanCode) (s' : scanner)
    (h : stateEndTop s c = (v, s')) (he : s'.err = none) :
    stateEndTop { s with bytes := b } c = (v, { s' with bytes := b }) := by
  unfold stateEndTop at h ⊢
  split at h
  · cases h; simp [scanner.error] at he
  · rename_i hc
    cases h
    rw [if_neg hc]

theorem bytes_endValue (s : scanner) (b : Nat) (c : Byte) (v : ScanCode) (s' : scanner)
    (h : stateEndValue s c = (v, s')) (he : s'.err = none) :
    stateEndValue { s with bytes := b } c = (v, { s' with bytes := b }) := by
  unfold stateEndValue at h ⊢
  split at h
  · rename_i hp
    have := bytes_endTop { s with step := .stateEndTop, endTop := true } b c v s' h he
    simpa [hp] using this
  · rename_i ps rest hp
    simp only [hp]
    split at h
    · rename_i hsp
      cases h
      rw [if_pos hsp]
      simp [hp]
    · rename_i hsp
      rw [if_neg hsp]
      cases ps <;> simp only [] at h ⊢
      · split at h
        · rename_i hc; cases h; rw [if_pos hc]; try simp [hp]
        · cases h; simp [scanner.error] at he
      · split at h
        · rename_i hc; cases h; rw [if_pos hc]; try simp [hp]
        · rename_i hc
          rw [if_neg hc]
          split at h
          · rename_i hc2; cases h; rw [if_pos hc2]; simp [scanner.popParseState, hp]
            split <;> rfl
          · cases h; simp [scanner.error] at he
      · split at h
        · rename_i hc; cases h; rw [if_pos hc]; try simp [hp]
        · rename_i hc
          rw [if_neg hc]
          split at h
          · rename_i hc2; cases h; rw [if_pos hc2]; simp [scanner.popParseState, hp]
            split <;> rfl
          · cases h; simp [scanner.error] at he

theorem bytes_push (s : scanner) (b : Nat) (c : Byte) (p : ParseState) (v0 v : ScanCode)
    (s' : scanner) (h : s.pushParseState c p v0 = (v, s')) (he : s'.err = none) :
    ({ s with bytes := b }).pushParseState c p v0 = (v, { s' with bytes := b }) := by
  unfold scanner.pushParseState at h ⊢
  simp only [] at h ⊢
  split at h
  · rename_i hlen
    cases h
    rw [if_pos hlen]
  · cases h; simp [scanner.error] at he

theorem bytes_beginValue (s : scanner) (b : Nat) (c : Byte) (v : ScanCode) (s' : scanner)
    (h : stateBeginValue s c = (v, s')) (he : s'.err = none) :
    stateBeginValue { s with bytes := b } c = (v, { s' with bytes := b }) := by
  unfold stateBeginValue at h ⊢
  split at h
  · rename_i hsp; cases h; rw [if_pos hsp]
  · rename_i hsp
    rw [if_neg hsp]
    split at h
    · exact bytes_push _ b _ _ _ v s' h he
    · exact bytes_push _ b _ _ _ v s' h he
    all_goals first
      | (cases h; rfl)
      | (simp only []
         split at h
         · rename_i hd; cases h; rw [if_pos hd]
         · cases h; simp [scanner.error] at he)

theorem bytes_beginString (s : scanner) (b : Nat) (c : Byte) (v : ScanCode) (s' : scanner)
    (h : stateBeginString s c = (v, s')) (he : s'.err = none) :
    stateBeginString { s with bytes := b } c = (v, { s' with bytes := b }) := by
  unfold stateBeginString at h ⊢
  split at h
  · rename_i hsp; cases h; rw [if_pos hsp]
  · rename_i hsp
    rw [if_neg hsp]
    split at h
    · rename_i hc; cases h; rw [if_pos hc]
    · cases h; simp [scanner.error] at he

theorem bytes_lit (w : Byte) (t : StepFn) (m : String) (s : scanner) (b : Nat) (c : Byte)
    (v : ScanCode) (s' : scanner) (h : stateLit w t m s c = (v, s')) (he : s'.err = none) :
    stateLit w t m { s with bytes := b } c = (v, { s' with bytes := b }) := by
  unfold stateLit at h ⊢
  split at h
  · rename_i hc; cases h; rw [if_pos hc]
  · cases h; simp [scanner.error] at he

theorem bytes_hex (t : StepFn) (s : scanner) (b : Nat) (c : Byte)
    (v : ScanCode) (s' : scanner) (h : stateHex t s c = (v, s')) (he : s'.err = none) :
    stateHex t { s with bytes := b } c = (v, { s' with bytes := b }) := by
  unfold stateHex at h ⊢
  split at h
  · rename_i hc; cases h; rw [if_pos hc]
  · cases h; simp [scanner.error] at he

theorem bytes_state0 (s : scanner) (b : Nat) (c : Byte) (v : ScanCode) (s' : scanner)
    (h : state0 s c = (v, s')) (he : s'.err = none) :
    state0 { s with bytes := b } c = (v, { s' with bytes := b }) := by
  unfold state0 at h ⊢
  split at h
  · rename_i hc; cases h; rw [if_pos hc]
  · rename_i hc
    rw [if_neg hc]
    split at h
    · rename_i hc2; cases h; rw [if_pos hc2]
    · rename_i hc2
      rw [if_neg hc2]
      exact bytes_endValue s b c v s' h he

theorem bytes_eSign (s : scanner) (b : Nat) (c : Byte) (v : ScanCode) (s' : scanner)
    (h : stateESign s c = (v, s')) (he : s'.err = none) :
    stateESign { s with bytes := b } c = (v, { s' with bytes := b }) := by
  unfold stateESign at h ⊢
  split at h
  · rename_i hc; cases h; rw [if_pos hc]
  · cases h; simp [scanner.error] at he

/-- The scanner's transition does not depend on the byte count, which only
ends up in the offset of an error. -/
theorem bytes_stepOn (s : scanner) (b : Nat) (c : Byte) (v : ScanCode) (s' : scanner)
    (h : s.stepOn c = (v, s')) (he : s'.err = none) :
    ({ s with bytes := b }).stepOn c = (v, { s' with bytes := b }) := by
  unfold scanner.stepOn at h ⊢
  simp only []
  split at h
  · unfold stateBeginValueOrEmpty at h ⊢
    split at h
    · rename_i hsp; cases h; rw [if_pos hsp]
    · rename_i hsp
      rw [if_neg hsp]
      split at h
      · rename_i hc; rw [if_pos hc]
        exact bytes_endValue s b _ v s' h he
      · rename_i hc; rw [if_neg hc]
        exact bytes_beginValue s b c v s' h he
  · exact bytes_beginValue s b c v s' h he
  · unfold stateBeginStringOrEmpty at h ⊢
    split at h
    · rename_i hsp; cases h; rw [if_pos hsp]
    · rename_i hsp
      rw [if_neg hsp]
      split at h
      · rename_i hc; rw [if_pos hc]
        exact bytes_endValue _ b _ v s' h he
      · rename_i hc; rw [if_neg hc]
        exact bytes_beginString s b c v s' h he
  · exact bytes_beginString s b c v s' h he
  · exact bytes_endValue s b c v s' h he
  · exact bytes_endTop s b c v s' h he
  · unfold stateInString at h ⊢
    split at h
    · rename_i hc; cases h; rw [if_pos hc]
    · rename_i hc
      rw [if_neg hc]
      split at h
      · rename_i hc2; cases h; rw [if_pos hc2]
      · rename_i hc2
        rw [if_neg hc2]
        split at h
        · cases h; simp [scanner.error] at he
        · rename_i hc3; cases h; rw [if_neg hc3]
  · unfold stateInStringEsc at h ⊢
    split at h <;> cases h <;> first
      | (simp [scanner.error] at he; done)
      | rfl
  · exact bytes_hex _ s b c v s' h he
  · exact bytes_hex _ s b c v s' h he
  · exact bytes_hex _ s b c v s' h he
  · exact bytes_hex _ s b c v s' h he
  · unfold stateNeg at h ⊢
    split at h
    · rename_i hc; cases h; rw [if_pos hc]
    · rename_i hc
      rw [if_neg hc]
      split at h
      · rename_i hc2; cases h; rw [if_pos hc2]
      · cases h; simp [scanner.error] at he
  · unfold state1 at h ⊢
    split at h
    · rename_i hc; cases h; rw [if_pos hc]
    · rename_i hc; rw [if_neg hc]
      exact bytes_state0 s b c v s' h he
  · exact bytes_state0 s b c v s' h he
  · unfold stateDot at h ⊢
    split at h
    · rename_i hc; cases h; rw [if_pos hc]
    · cases h; simp [scanner.error] at he
  · unfold stateDot0 at h ⊢
    split at h
    · rename_i hc; cases h; rw [if_pos hc]
    · rename_i hc
      rw [if_neg hc]
      split at h
      · rename_i hc2; cases h; rw [if_pos hc2]
      · rename_i hc2; rw [if_neg hc2]
        exact bytes_endValue s b c v s' h he
  · unfold stateE at h ⊢
    split at h
    · rename_i hc; cases h; rw [if_pos hc]
    · rename_i hc; rw [if_neg hc]
      exact bytes_eSign s b c v s' h he
  · exact bytes_eSign s b c v s' h he
  · unfold stateE0 at h ⊢
    split at h
    · rename_i hc; cases h; rw [if_pos hc]
    · rename_i hc; rw [if_neg hc]
      exact bytes_endValue s b c v s' h he
  all_goals first
    | exact bytes_lit _ _ _ s b c v s' h he
    | (cases h; rfl)

/-! ## The scanner, transition by transition -/

theorem isSpace_iff (c : Byte) : isSpace c = true ↔ c = 32 ∨ c = 9 ∨ c = 13 ∨ c = 10 := by
  unfold isSpace
  constructor
  · intro h
    simp only [Bool.and_eq_true, Bool.or_eq_true, decide_eq_true_eq, beq_iff_eq] at h
    tauto
  · intro h
    rcases h with h | h | h | h <;> subst h <;> decide

/-- What `stateEndValue` does when it records no error. -/
theorem endValue_cases (s : scanner) (c : Byte) (v : ScanCode) (s' : scanner)
    (h : stateEndValue s c = (v, s')) (he : s'.err = none) :
    s'.step ≠ .stateError ∧
    ((v = .scanSkipSpace ∧ isSpace c = true ∧ s.parseState ≠ [] ∧
        s' = { s with step := .stateEndValue }) ∨
     (v = .scanEnd ∧ isSpace c = true ∧ s.parseState = []) ∨
     (v = .scanObjectKey ∧ c = 58 ∧ s'.step = .stateBeginValue) ∨
     (v = .scanObjectValue ∧ c = 44 ∧ s'.step = .stateBeginString) ∨
     (v = .scanArrayValue ∧ c = 44 ∧ s'.step = .stateBeginValue) ∨
     (v = .scanEndObject ∧ c = 125 ∧ s.parseState ≠ []) ∨
     (v = .scanEndArray ∧ c = 93 ∧ s.parseState ≠ [])) := by
  unfold stateEndValue at h
  split at h
  · rename_i hp
    unfold stateEndTop at h
    split at h
    · cases h; simp [scanner.error] at he
    · rename_i hc
      cases h
      simp at hc
      simp [hc, hp]
  · rename_i ps rest hp
    split at h
    · rename_i hsp
      cases h
      simp [hsp, hp]
    · cases ps <;> simp only [] at h
      · split at h
        · rename_i hc; cases h; simp [hc]
        · cases h; simp [scanner.error] at he
      · split at h
        · rename_i hc; cases h; simp [hc]
        · split at h
          · rename_i hc; cases h
            simp [hc, hp, scanner.popParseState]
            split <;> simp
          · cases h; simp [scanner.error] at he
      · split at h
        · rename_i hc; cases h; simp [hc]
        · split at h
          · rename_i hc; cases h
            simp [hc, hp, scanner.popParseState]
            split <;> simp
          · cases h; simp [scanner.error] at he

theorem kind_endValue (s : scanner) (c : Byte) (v : ScanCode) (s' : scanner)
    (h : stateEndValue s c = (v, s')) (he : s'.err = none) (hn : isNumEnd s.step) :
    Kind s c v s' := by
  obtain ⟨h1, h2⟩ := endValue_cases s c v s' h he
  refine ⟨h1, ?_⟩
  rcases h2 with ⟨hv, h2⟩ | ⟨hv, h2⟩ | ⟨hv, h2⟩ | ⟨hv, h2⟩ | ⟨hv, h2⟩ | ⟨hv, h2⟩ | ⟨hv, h2⟩ <;>
    subst hv <;> simp only []
  · exact ⟨h2.1, Or.inr ⟨hn, h2.2.1, h2.2.2⟩⟩
  · exact ⟨h2.1, Or.inr ⟨hn, h2.2⟩⟩
  · exact ⟨hn, h2.1, by simp [isBegin, h2.2]⟩
  · exact ⟨hn, h2.1, by simp [isBegin, h2.2]⟩
  · exact ⟨hn, h2.1, by simp [isBegin, h2.2]⟩
  · exact ⟨Or.inl hn, h2.2, h2.1⟩
  · exact ⟨Or.inl hn, h2.2, h2.1⟩

theorem kind_endTop (s : scanner) (c : Byte) (v : ScanCode) (s' : scanner)
    (h : stateEndTop s c = (v, s')) (he : s'.err = none) (hn : s.step = .stateEndTop) :
    Kind s c v s' := by
  unfold stateEndTop at h
  split at h
  · cases h; simp [scanner.error] at he
  · rename_i hc
    cases h
    simp at hc
    simp [Kind, hc, hn]

theorem kind_beginValue (s : scanner) (c : Byte) (v : ScanCode) (s' : scanner)
    (h : stateBeginValue s c = (v, s')) (he : s'.err = none)
    (hn : s.step = .stateBeginValue ∨ s.step = .stateBeginValueOrEmpty) :
    Kind s c v s' := by
  have hb : isBegin s.step := by rcases hn with h | h <;> simp [isBegin, h]
  have hse : s.step ≠ .stateError := by rcases hn with h | h <;> simp [h]
  unfold stateBeginValue at h
  split at h
  · rename_i hsp
    cases h
    exact ⟨hse, hsp, Or.inl ⟨hb, rfl⟩⟩
  · split at h
    · unfold scanner.pushParseState at h
      simp only [] at h
      split at h
      · cases h; simp [Kind, hb, isOrEmpty]
      · cases h; simp [scanner.error] at he
    · unfold scanner.pushParseState at h
      simp only [] at h
      split at h
      · cases h; simp [Kind, hb, isOrEmpty]
      · cases h; simp [scanner.error] at he
    all_goals first
      | (cases h; simp [Kind, hb])
      | (split at h
         · rename_i hd; cases h
           exact ⟨by simp, hb, Or.inr (Or.inr (Or.inl ⟨Nat.le_trans (by decide) hd.1, hd.2⟩))⟩
         · cases h; simp [scanner.error] at he)

theorem kind_beginString (s : scanner) (c : Byte) (v : ScanCode) (s' : scanner)
    (h : stateBeginString s c = (v, s')) (he : s'.err = none)
    (hn : s.step = .stateBeginString ∨ s.step = .stateBeginStringOrEmpty) :
    Kind s c v s' := by
  have hb : isBegin s.step := by rcases hn with h | h <;> simp [isBegin, h]
  have hse : s.step ≠ .stateError := by rcases hn with h | h <;> simp [h]
  unfold stateBeginString at h
  split at h
  · rename_i hsp
    cases h
    exact ⟨hse, hsp, Or.inl ⟨hb, rfl⟩⟩
  · split at h
    · rename_i hc; cases h; simp [Kind, hb, hc]
    · cases h; simp [scanner.error] at he

theorem kind_continue (s s' : scanner) (c : Byte) (h1 : s'.step ≠ .stateError)
    (h2 : ¬ isOrEmpty s.step) (h3 : s.step ≠ .stateEndValue) :
    Kind s c .scanContinue s' :=
  ⟨h1, h2, h3⟩

theorem kind_lit (w : Byte) (t : StepFn) (m : String) (s : scanner) (c : Byte)
    (v : ScanCode) (s' : scanner) (h : stateLit w t m s c = (v, s')) (he : s'.err = none)
    (ht : t ≠ .stateError) (h2 : ¬ isOrEmpty s.step) (h3 : s.step ≠ .stateEndValue) :
    Kind s c v s' := by
  unfold stateLit at h
  split at h
  · cases h; exact kind_continue _ _ _ ht h2 h3
  · cases h; simp [scanner.error] at he

theorem kind_hex (t : StepFn) (s : scanner) (c : Byte)
    (v : ScanCode) (s' : scanner) (h : stateHex t s c = (v, s')) (he : s'.err = none)
    (ht : t ≠ .stateError) (h2 : ¬ isOrEmpty s.step) (h3 : s.step ≠ .stateEndValue) :
    Kind s c v s' := by
  unfold stateHex at h
  split at h
  · cases h; exact kind_continue _ _ _ ht h2 h3
  · cases h; simp [scanner.error] at he

theorem kind_state0 (s : scanner) (c : Byte) (v : ScanCode) (s' : scanner)
    (h : state0 s c = (v, s')) (he : s'.err = none)
    (hn : s.step = .state0 ∨ s.step = .state1) : Kind s c v s' := by
  have h2 : ¬ isOrEmpty s.step := by rcases hn with h | h <;> simp [isOrEmpty, h]
  have h3 : s.step ≠ .stateEndValue := by rcases hn with h | h <;> simp [h]
  unfold state0 at h
  split at h
  · cases h; exact kind_continue _ _ _ (by simp) h2 h3
  · split at h
    · cases h; exact kind_continue _ _ _ (by simp) h2 h3
    · exact kind_endValue s c v s' h he (by rcases hn with h | h <;> simp [isNumEnd, h])

theorem kind_eSign (s : scanner) (c : Byte) (v : ScanCode) (s' : scanner)
    (h : stateESign s c = (v, s')) (he : s'.err = none)
    (hn : s.step = .stateE ∨ s.step = .stateESign) : Kind s c v s' := by
  have h2 : ¬ isOrEmpty s.step := by rcases hn with h | h <;> simp [isOrEmpty, h]
  have h3 : s.step ≠ .stateEndValue := by rcases hn with h | h <;> simp [h]
  unfold stateESign at h
  split at h
  · cases h; exact kind_continue _ _ _ (by simp) h2 h3
  · cases h; simp [scanner.error] at he

/-- Every transition that records no error is of one of the kinds. -/
theorem kind_stepOn (s : scanner) (c : Byte) (v : ScanCode) (s' : scanner)
    (h : s.stepOn c = (v, s')) (hs : s.step ≠ .stateError) (he : s'.err = none) :
    Kind s c v s' := by
  unfold scanner.stepOn at h
  split at h
  · rename_i hstep
    unfold stateBeginValueOrEmpty at h
    split at h
    · rename_i hsp
      cases h
      exact ⟨hs, hsp, Or.inl ⟨by simp [isBegin, hstep], rfl⟩⟩
    · split at h
      · rename_i hc
        obtain ⟨h1, h2⟩ := endValue_cases s c v s' h he
        refine ⟨h1, ?_⟩
        subst hc
        rcases h2 with ⟨hv, h2⟩ | ⟨hv, h2⟩ | ⟨hv, h2⟩ | ⟨hv, h2⟩ | ⟨hv, h2⟩ | ⟨hv, h2⟩ |
            ⟨hv, h2⟩ <;> subst hv <;> simp only []
        · exact absurd h2.1 (by decide)
        · exact absurd h2.1 (by decide)
        · exact absurd h2.1 (by decide)
        · exact absurd h2.1 (by decide)
        · exact absurd h2.1 (by decide)
        · exact absurd h2.1 (by decide)
        · exact ⟨Or.inr (by simp [isOrEmpty, hstep]), h2.2, trivial⟩
      · exact kind_beginValue s c v s' h he (Or.inr hstep)
  · rename_i hstep
    exact kind_beginValue s c v s' h he (Or.inl hstep)
  · rename_i hstep
    unfold stateBeginStringOrEmpty at h
    split at h
    · rename_i hsp
      cases h
      exact ⟨hs, hsp, Or.inl ⟨by simp [isBegin, hstep], rfl⟩⟩
    · split at h
      · rename_i hc
        obtain ⟨h1, h2⟩ := endValue_cases _ c v s' h he
        refine ⟨h1, ?_⟩
        subst hc
        rcases h2 with ⟨hv, h2⟩ | ⟨hv, h2⟩ | ⟨hv, h2⟩ | ⟨hv, h2⟩ | ⟨hv, h2⟩ | ⟨hv, h2⟩ |
            ⟨hv, h2⟩ <;> subst hv <;> simp only []
        · exact absurd h2.1 (by decide)
        · exact absurd h2.1 (by decide)
        · exact absurd h2.1 (by decide)
        · exact absurd h2.1 (by decide)
        · exact absurd h2.1 (by decide)
        · refine ⟨Or.inr (by simp [isOrEmpty, hstep]), ?_, trivial⟩
          have := h2.2
          intro hnil
          simp [hnil] at this
        · exact absurd h2.1 (by decide)
      · exact kind_beginString s c v s' h he (Or.inr hstep)
  · rename_i hstep
    exact kind_beginString s c v s' h he (Or.inl hstep)
  · rename_i hstep
    exact kind_endValue s c v s' h he (by simp [isNumEnd, hstep])
  · rename_i hstep
    exact kind_endTop s c v s' h he hstep
  · rename_i hstep
    unfold stateInString at h
    split at h
    · cases h; exact kind_continue _ _ _ (by simp) (by simp [isOrEmpty, hstep]) (by simp [hstep])
    · split at h
      · cases h
        exact kind_continue _ _ _ (by simp) (by simp [isOrEmpty, hstep]) (by simp [hstep])
      · split at h
        · cases h; simp [scanner.error] at he
        · cases h
          exact kind_continue _ _ _ (by simp [hstep]) (by simp [isOrEmpty, hstep])
            (by simp [hstep])
  · rename_i hstep
    unfold stateInStringEsc at h
    split at h <;> cases h <;> first
      | (simp [scanner.error] at he; done)
      | exact kind_continue _ _ _ (by simp) (by simp [isOrEmpty, hstep]) (by simp [hstep])
  · rename_i hstep
    exact kind_hex _ s c v s' h he (by simp) (by simp [isOrEmpty, hstep]) (by simp [hstep])
  · rename_i hstep
    exact kind_hex _ s c v s' h he (by simp) (by simp [isOrEmpty, hstep]) (by simp [hstep])
  · rename_i hstep
    exact kind_hex _ s c v s' h he (by simp) (by simp [isOrEmpty, hstep]) (by simp [hstep])
  · rename_i hstep
    exact kind_hex _ s c v s' h he (by simp) (by simp [isOrEmpty, hstep]) (by simp [hstep])
  · rename_i hstep
    unfold stateNeg at h
    split at h
    · cases h; exact kind_continue _ _ _ (by simp) (by simp [isOrEmpty, hstep]) (by simp [hstep])
    · split at h
      · cases h
        exact kind_continue _ _ _ (by simp) (by simp [isOrEmpty, hstep]) (by simp [hstep])
      · cases h; simp [scanner.error] at he
  · rename_i hstep
    unfold state1 at h
    split at h
    · cases h; exact kind_continue _ _ _ (by simp) (by simp [isOrEmpty, hstep]) (by simp [hstep])
    · exact kind_state0 s c v s' h he (Or.inr hstep)
  · rename_i hstep
    exact kind_state0 s c v s' h he (Or.inl hstep)
  · rename_i hstep
    unfold stateDot at h
    split at h
    · cases h; exact kind_continue _ _ _ (by simp) (by simp [isOrEmpty, hstep]) (by simp [hstep])
    · cases h; simp [scanner.error] at he
  · rename_i hstep
    unfold stateDot0 at h
    split at h
    · cases h
      exact kind_continue _ _ _ (by simp [hstep]) (by simp [isOrEmpty, hstep]) (by simp [hstep])
    · split at h
      · cases h
        exact kind_continue _ _ _ (by simp) (by simp [isOrEmpty, hstep]) (by simp [hstep])
      · exact kind_endValue s c v s' h he (by simp [isNumEnd, hstep])
  · rename_i hstep
    unfold stateE at h
    split at h
    · cases h; exact kind_continue _ _ _ (by simp) (by simp [isOrEmpty, hstep]) (by simp [hstep])
    · exact kind_eSign s c v s' h he (Or.inl hstep)
  · rename_i hstep
    exact kind_eSign s c v s' h he (Or.inr hstep)
  · rename_i hstep
    unfold stateE0 at h
    split at h
    · cases h
      exact kind_continue _ _ _ (by simp [hstep]) (by simp [isOrEmpty, hstep]) (by simp [hstep])
    · exact kind_endValue s c v s' h he (by simp [isNumEnd, hstep])
  all_goals first
    | (rename_i hstep
       exact kind_lit _ _ _ s c v s' h he (by simp) (by simp [isOrEmpty, hstep])
         (by simp [hstep]))
    | (rename_i hstep; exact absurd hstep hs)

theorem space_begin (s : scanner) (c : Byte) (hb : isBegin s.step) (hc : isSpace c = true) :
    s.stepOn c = (.scanSkipSpace, s) := by
  rcases hb with h | h | h | h <;>
    simp [scanner.stepOn, h, stateBeginValueOrEmpty, stateBeginValue, stateBeginStringOrEmpty,
      stateBeginString, hc]

theorem endValue_step (s : scanner) (t : StepFn) (c : Byte) :
    stateEndValue { s with step := t } c = stateEndValue s c := by
  unfold stateEndValue
  cases hp : s.parseState with
  | nil => simp [hp]
  | cons ps rest =>
    simp only [hp]
    split
    · rfl
    · cases ps <;> simp only [] <;> (repeat' split) <;>
        simp [scanner.error, scanner.popParseState, hp]

theorem numEnd_falls (s : scanner) (c : Byte) (hn : isNumEnd s.step)
    (hc : isSpace c = true ∨ c = 58 ∨ c = 44 ∨ c = 125 ∨ c = 93) :
    s.stepOn c = stateEndValue s c := by
  have hc' : c = 32 ∨ c = 9 ∨ c = 13 ∨ c = 10 ∨ c = 58 ∨ c = 44 ∨ c = 125 ∨ c = 93 := by
    rcases hc with h | h
    · rcases (isSpace_iff c).mp h with h | h | h | h <;> simp [h]
    · tauto
  rcases hn with h | h | h | h | h <;>
    rcases hc' with h' | h' | h' | h' | h' | h' | h' | h' <;> subst h' <;>
    simp [scanner.stepOn, h, state0, state1, stateDot0, stateE0]

theorem space_numEnd (s : scanner) (c : Byte) (hn : isNumEnd s.step)
    (hp : s.parseState ≠ []) (hc : isSpace c = true) :
    s.stepOn c = (.scanSkipSpace, { s with step := .stateEndValue }) := by
  rw [numEnd_falls s c hn (Or.inl hc)]
  unfold stateEndValue
  split
  · rename_i h; exact absurd h hp
  · rw [if_pos hc]

/-- Where a value may end, the bytes that end it do not care which of these
states the scanner is in. -/
theorem numEnd_swap (s : scanner) (t : StepFn) (c : Byte) (hn : isNumEnd s.step)
    (ht : isNumEnd t) (hc : isSpace c = true ∨ c = 58 ∨ c = 44 ∨ c = 125 ∨ c = 93) :
    ({ s with step := t }).stepOn c = s.stepOn c := by
  rw [numEnd_falls s c hn hc, numEnd_falls { s with step := t } c ht hc, endValue_step]

/-! ## The loop of `json.Indent`, step by step -/

theorem openIndent_withScan (pfx indent : List Byte) (v : ScanCode) (st : IndentState)
    (s : scanner) :
    openIndent pfx indent v (withScan st s) = withScan (openIndent pfx indent v st) s := by
  unfold openIndent withScan
  split <;> rfl

theorem emitByte_withScan (pfx indent : List Byte) (v : ScanCode) (c : Byte)
    (st : IndentState) (s : scanner) :
    emitByte pfx indent v c (withScan st s) = withScan (emitByte pfx indent v c st) s := by
  unfold emitByte withScan
  split
  · rfl
  · split
    all_goals first
      | rfl
      | (simp only []; split <;> rfl)

theorem withScan_withScan (st : IndentState) (s s' : scanner) :
    withScan (withScan st s) s' = withScan st s' := rfl

theorem withScan_scan (st : IndentState) : withScan st st.scan = st := rfl

/-- The loop body with the scanner's part set apart from the emission. -/
theorem indentStep_eq (pfx indent : List Byte) (st : IndentState) (c : Byte) (v : ScanCode)
    (s' : scanner) (hst : st.stopped = false)
    (h : ({ st.scan with bytes := st.scan.bytes + 1 }).stepOn c = (v, s')) :
    indentStep pfx indent st c =
      if v = .scanSkipSpace then withScan st s'
      else if v = .scanError then { withScan st s' with stopped := true }
      else withScan (emitByte pfx indent v c (openIndent pfx indent v st)) s' := by
  unfold indentStep
  rw [if_neg (by rw [hst]; decide)]
  simp only [h]
  split
  · rfl
  · split
    · rfl
    · have := emitByte_withScan pfx indent v c (openIndent pfx indent v st) s'
      rw [← this, ← openIndent_withScan]
      rfl

/-- Two loop states that differ in their scanners only, and whose scanners
return the same value on the byte, stay so related. -/
theorem indentStep_congr (pfx indent : List Byte) (st : IndentState) (c : Byte)
    (v : ScanCode) (s' s2 s2' : scanner) (hst : st.stopped = false)
    (h : ({ st.scan with bytes := st.scan.bytes + 1 }).stepOn c = (v, s'))
    (h2 : ({ s2 with bytes := s2.bytes + 1 }).stepOn c = (v, s2')) :
    indentStep pfx indent (withScan st s2) c = withScan (indentStep pfx indent st c) s2' := by
  rw [indentStep_eq pfx indent st c v s' hst h,
    indentStep_eq pfx indent (withScan st s2) c v s2' hst h2]
  split
  · rfl
  · split
    · rfl
    · rw [openIndent_withScan, emitByte_withScan]
      rfl

theorem run_space_begin (pfx indent : List Byte) (W : List Byte) :
    ∀ (st : IndentState), st.stopped = false → isBegin st.scan.step → allSpace W →
      W.foldl (indentStep pfx indent) st =
        withScan st { st.scan with bytes := st.scan.bytes + W.length } := by
  induction W with
  | nil => intro st _ _ _; rfl
  | cons c W ih =>
    intro st hst hb hW
    have hc : isSpace c = true := hW c (by simp)
    have hstep := space_begin { st.scan with bytes := st.scan.bytes + 1 } c hb hc
    rw [List.foldl_cons, indentStep_eq pfx indent st c _ _ hst hstep]
    simp only [if_true]
    rw [ih (withScan st { st.scan with bytes := st.scan.bytes + 1 }) hst hb
      (fun x hx => hW x (by simp [hx]))]
    simp [withScan, Nat.add_assoc, Nat.add_comm 1]

theorem run_space_numEnd (pfx indent : List Byte) (W : List Byte) :
    ∀ (st : IndentState), st.stopped = false → isNumEnd st.scan.step →
      st.scan.parseState ≠ [] → allSpace W →
      ∃ t, isNumEnd t ∧
        W.foldl (indentStep pfx indent) st =
          withScan st { st.scan with bytes := st.scan.bytes + W.length, step := t } := by
  induction W with
  | nil => intro st _ hn _ _; exact ⟨st.scan.step, hn, rfl⟩
  | cons c W ih =>
    intro st hst hn hp hW
    have hc : isSpace c = true := hW c (by simp)
    have hstep := space_numEnd { st.scan with bytes := st.scan.bytes + 1 } c hn hp hc
    rw [List.foldl_cons, indentStep_eq pfx indent st c _ _ hst hstep]
    simp only [if_true]
    obtain ⟨t, ht, hrun⟩ := ih
      (withScan st { st.scan with bytes := st.scan.bytes + 1, step := .stateEndValue }) hst
      (by simp [withScan, isNumEnd]) hp (fun x hx => hW x (by simp [hx]))
    refine ⟨t, ht, ?_⟩
    rw [hrun]
    simp [withScan, Nat.add_assoc, Nat.add_comm 1]

theorem allSpace_nil : allSpace ([] : List Byte) := by
  intro c hc; simp at hc

theorem allSpace_append {a b : List Byte} (ha : allSpace a) (hb : allSpace b) :
    allSpace (a ++ b) := by
  intro c hc
  rcases List.mem_append.mp hc with h | h
  · exact ha c h
  · exact hb c h

theorem allSpace_newline (pfx indent : List Byte) (depth : Int) (hp : allSpace pfx)
    (hi : allSpace indent) :
    allSpace (10 :: pfx ++ (List.replicate depth.toNat indent).flatten) := by
  intro c hc
  rcases List.mem_append.mp hc with h | h
  · rcases List.mem_cons.mp h with h | h
    · subst h; decide
    · exact hp c h
  · obtain ⟨l, hl, hcl⟩ := List.mem_flatten.mp h
    have := (List.mem_replicate.mp hl).2
    subst this
    exact hi c hcl

theorem newline_eq (dst pfx indent : List Byte) (depth : Int) :
    newline dst pfx indent depth =
      dst ++ (10 :: pfx ++ (List.replicate depth.toNat indent).flatten) := by
  simp [newline]

theorem openIndent_shape (pfx indent : List Byte) (v : ScanCode) (st : IndentState)
    (hp : allSpace pfx) (hi : allSpace indent) :
    ∃ pre,
      (openIndent pfx indent v st).dst = st.dst ++ pre ∧ allSpace pre ∧
      (pre ≠ [] → st.needIndent = true ∧ v ≠ .scanEndObject ∧ v ≠ .scanEndArray) ∧
      ((openIndent pfx indent v st).needIndent = true →
        st.needIndent = true ∧ (v = .scanEndObject ∨ v = .scanEndArray)) ∧
      (openIndent pfx indent v st).stopped = st.stopped ∧
      (openIndent pfx indent v st).scan = st.scan := by
  unfold openIndent
  split
  · rename_i hopen
    refine ⟨10 :: pfx ++ (List.replicate (st.depth + 1).toNat indent).flatten, ?_,
      allSpace_newline pfx indent _ hp hi, fun _ => hopen, ?_, rfl, rfl⟩
    · simp only []; rw [newline_eq]
    · intro h; simp at h
  · rename_i hopen
    refine ⟨[], by simp, allSpace_nil, by simp, ?_, rfl, rfl⟩
    intro h
    refine ⟨h, ?_⟩
    by_contra hcon
    exact hopen ⟨h, fun h1 => hcon (Or.inl h1), fun h2 => hcon (Or.inr h2)⟩

theorem emitByte_shape (pfx indent : List Byte) (v : ScanCode) (c : Byte) (st : IndentState)
    (hp : allSpace pfx) (hi : allSpace indent) :
    ∃ pre post,
      (emitByte pfx indent v c st).dst = st.dst ++ pre ++ c :: post ∧
      allSpace pre ∧ allSpace post ∧
      (pre ≠ [] → (c = 125 ∨ c = 93) ∧ v ≠ .scanContinue) ∧
      (post ≠ [] → v ≠ .scanContinue ∧ (c = 44 ∨ c = 58)) ∧
      ((emitByte pfx indent v c st).needIndent = true →
        (v ≠ .scanContinue ∧ (c = 123 ∨ c = 91)) ∨
        (st.needIndent = true ∧ ¬ (v ≠ .scanContinue ∧ (c = 125 ∨ c = 93)))) ∧
      (emitByte pfx indent v c st).stopped = st.stopped ∧
      (emitByte pfx indent v c st).scan = st.scan := by
  have h32 : allSpace ([32] : List Byte) := by
    intro c hc; simp at hc; subst hc; decide
  unfold emitByte
  split
  · rename_i hv
    refine ⟨[], [], by simp, allSpace_nil, allSpace_nil, by simp, by simp, ?_, rfl, rfl⟩
    intro h
    exact Or.inr ⟨h, by simp [hv]⟩
  · rename_i hv
    split
    · exact ⟨[], [], by simp, allSpace_nil, allSpace_nil, by simp, by simp,
        fun _ => Or.inl ⟨hv, Or.inl rfl⟩, rfl, rfl⟩
    · exact ⟨[], [], by simp, allSpace_nil, allSpace_nil, by simp, by simp,
        fun _ => Or.inl ⟨hv, Or.inr rfl⟩, rfl, rfl⟩
    · refine ⟨[], 10 :: pfx ++ (List.replicate st.depth.toNat indent).flatten, ?_,
        allSpace_nil, allSpace_newline pfx indent _ hp hi, by simp,
        fun _ => ⟨hv, Or.inl rfl⟩, ?_, rfl, rfl⟩
      · simp only []; rw [newline_eq]; simp
      · intro h
        exact Or.inr ⟨h, by simp⟩
    · refine ⟨[], [32], by simp, allSpace_nil, h32, by simp, fun _ => ⟨hv, Or.inr rfl⟩, ?_,
        rfl, rfl⟩
      intro h
      exact Or.inr ⟨h, by simp⟩
    · split
      · refine ⟨[], [], by simp, allSpace_nil, allSpace_nil, by simp, by simp, ?_, rfl, rfl⟩
        intro h; simp at h
      · rename_i hn
        refine ⟨10 :: pfx ++ (List.replicate (st.depth - 1).toNat indent).flatten, [], ?_,
          allSpace_newline pfx indent _ hp hi, allSpace_nil,
          fun _ => ⟨Or.inl rfl, hv⟩, by simp, ?_, rfl, rfl⟩
        · simp only []; rw [newline_eq]
        · intro h; exact absurd h hn
    · split
      · refine ⟨[], [], by simp, allSpace_nil, allSpace_nil, by simp, by simp, ?_, rfl, rfl⟩
        intro h; simp at h
      · rename_i hn
        refine ⟨10 :: pfx ++ (List.replicate (st.depth - 1).toNat indent).flatten, [], ?_,
          allSpace_newline pfx indent _ hp hi, allSpace_nil,
          fun _ => ⟨Or.inr rfl, hv⟩, by simp, ?_, rfl, rfl⟩
        · simp only []; rw [newline_eq]
        · intro h; exact absurd h hn
    · rename_i h1 h2 h3 h4 h5 h6
      refine ⟨[], [], by simp, allSpace_nil, allSpace_nil, by simp, by simp, ?_, rfl, rfl⟩
      intro h
      refine Or.inr ⟨h, ?_⟩
      intro hcon
      rcases hcon.2 with hc | hc
      · exact h5 hc
      · exact h6 hc

/-- What the emission appends for a byte: space, the byte, space; when the
space is there, and when an indent is pending afterwards. -/
theorem emit_shape (pfx indent : List Byte) (v : ScanCode) (c : Byte) (st : IndentState)
    (hp : allSpace pfx) (hi : allSpace indent) :
    ∃ pre post,
      (emitByte pfx indent v c (openIndent pfx indent v st)).dst = st.dst ++ pre ++ c :: post ∧
      allSpace pre ∧ allSpace post ∧
      (pre ≠ [] → (st.needIndent = true ∧ v ≠ .scanEndObject ∧ v ≠ .scanEndArray) ∨
        ((c = 125 ∨ c = 93) ∧ v ≠ .scanContinue)) ∧
      (post ≠ [] → v ≠ .scanContinue ∧ (c = 44 ∨ c = 58)) ∧
      ((emitByte pfx indent v c (openIndent pfx indent v st)).needIndent = true →
        (v ≠ .scanContinue ∧ (c = 123 ∨ c = 91)) ∨
        ((v = .scanEndObject ∨ v = .scanEndArray) ∧ ¬ (c = 125 ∨ c = 93))) ∧
      (emitByte pfx indent v c (openIndent pfx indent v st)).stopped = st.stopped ∧
      (emitByte pfx indent v c (openIndent pfx indent v st)).scan = st.scan := by
  obtain ⟨pre1, hd1, hs1, hp1, hn1, hst1, hsc1⟩ := openIndent_shape pfx indent v st hp hi
  obtain ⟨pre2, post, hd2, hs2, hs3, hp2, hpost, hn2, hst2, hsc2⟩ :=
    emitByte_shape pfx indent v c (openIndent pfx indent v st) hp hi
  refine ⟨pre1 ++ pre2, post, ?_, allSpace_append hs1 hs2, hs3, ?_, hpost, ?_, ?_, ?_⟩
  · rw [hd2, hd1]; simp
  · intro hne
    by_cases h1 : pre1 = []
    · by_cases h2 : pre2 = []
      · simp [h1, h2] at hne
      · exact Or.inr (hp2 h2)
    · exact Or.inl (hp1 h1)
  · intro h
    rcases hn2 h with h' | ⟨h', hnot⟩
    · exact Or.inl h'
    · obtain ⟨_, hv⟩ := hn1 h'
      right
      refine ⟨hv, fun hc => hnot ⟨?_, hc⟩⟩
      rcases hv with hv | hv <;> simp [hv]
  · rw [hst2, hst1]
  · rw [hsc2, hsc1]

/-! ## A second pass over the output follows the first pass -/

theorem not_isSpace_punct (c : Byte)
    (hc : c = 58 ∨ c = 44 ∨ c = 125 ∨ c = 93 ∨ c = 123 ∨ c = 91) : isSpace c = false := by
  rcases hc with h | h | h | h | h | h <;> subst h <;> decide

theorem isBegin_not_numEnd {t : StepFn} (h : isBegin t) : ¬ isNumEnd t := by
  rcases h with h | h | h | h <;> subst h <;> simp [isNumEnd]

theorem isOrEmpty_isBegin {t : StepFn} (h : isOrEmpty t) : isBegin t := by
  rcases h with h | h <;> subst h <;> simp [isBegin]

/-- A closing bracket that is not inside a literal closes a value. -/
theorem kind_close {s s' : scanner} {c : Byte} {v : ScanCode} (hk : Kind s c v s')
    (hc : c = 125 ∨ c = 93) (hv : v ≠ .scanContinue) :
    (isNumEnd s.step ∨ isOrEmpty s.step) ∧ s.parseState ≠ [] := by
  have hsp := not_isSpace_punct c (by tauto)
  obtain ⟨_, hk⟩ := hk
  cases v <;> simp only [] at hk
  · exact absurd rfl hv
  · rcases hc with h | h <;> subst h <;> simp at hk
  · rcases hc with h | h <;> subst h <;> simp at hk
  · rcases hc with h | h <;> subst h <;> simp at hk
  · rcases hc with h | h <;> subst h <;> simp at hk
  · exact ⟨hk.1, hk.2.1⟩
  · rcases hc with h | h <;> subst h <;> simp at hk
  · rcases hc with h | h <;> subst h <;> simp at hk
  · exact ⟨hk.1, hk.2.1⟩
  · rw [hsp] at hk; simp at hk
  · rw [hsp] at hk; simp at hk

/-- After a value inside a bracket, only punctuation is taken without error. -/
theorem kind_afterValue {s s' : scanner} {c : Byte} {v : ScanCode} (hk : Kind s c v s')
    (hs : s.step = .stateEndValue) (hp : s.parseState ≠ []) (hv : v ≠ .scanSkipSpace) :
    c = 58 ∨ c = 44 ∨ c = 125 ∨ c = 93 := by
  obtain ⟨_, hk⟩ := hk
  have hnb : ¬ isBegin s.step := by rw [hs]; simp [isBegin]
  cases v <;> simp only [] at hk
  · exact absurd hs hk.2
  · exact absurd hk.1 hnb
  · exact absurd hk.1 hnb
  · exact Or.inl hk.2.1
  · exact Or.inr (Or.inl hk.2.1)
  · exact Or.inr (Or.inr (Or.inl hk.2.2))
  · exact absurd hk.1 hnb
  · exact Or.inr (Or.inl hk.2.1)
  · exact Or.inr (Or.inr (Or.inr hk.2.2))
  · exact absurd rfl hv
  · rcases hk.2 with h | h
    · rw [hs] at h; simp at h
    · exact absurd h.2 hp

/-- After a comma or a colon that is not inside a literal the scanner waits
for a value or a key. -/
theorem kind_separator {s s' : scanner} {c : Byte} {v : ScanCode} (hk : Kind s c v s')
    (hc : c = 44 ∨ c = 58) (hv : v ≠ .scanContinue) (hv2 : v ≠ .scanSkipSpace) :
    isBegin s'.step := by
  have hsp := not_isSpace_punct c (by tauto)
  obtain ⟨_, hk⟩ := hk
  cases v <;> simp only [] at hk
  · exact absurd rfl hv
  · rcases hc with h | h <;> subst h <;> simp at hk
  · rcases hc with h | h <;> subst h <;> simp at hk
  · exact hk.2.2
  · exact hk.2.2
  · rcases hc with h | h <;> subst h <;> simp at hk
  · rcases hc with h | h <;> subst h <;> simp at hk
  · exact hk.2.2
  · rcases hc with h | h <;> subst h <;> simp at hk
  · exact absurd rfl hv2
  · rw [hsp] at hk; simp at hk

/-- After an opening bracket that is not inside a literal the scanner is in
one of the two states for a possibly empty value. -/
theorem kind_open {s s' : scanner} {c : Byte} {v : ScanCode} (hk : Kind s c v s')
    (hc : c = 123 ∨ c = 91) (hv : v ≠ .scanContinue) (hv2 : v ≠ .scanSkipSpace) :
    isOrEmpty s'.step := by
  have hsp := not_isSpace_punct c (by tauto)
  obtain ⟨_, hk⟩ := hk
  cases v <;> simp only [] at hk
  · exact absurd rfl hv
  · rcases hc with h | h <;> subst h <;> simp at hk
  · exact hk.2.2
  · rcases hc with h | h <;> subst h <;> simp at hk
  · rcases hc with h | h <;> subst h <;> simp at hk
  · rcases hc with h | h <;> subst h <;> simp at hk
  · exact hk.2.2
  · rcases hc with h | h <;> subst h <;> simp at hk
  · rcases hc with h | h <;> subst h <;> simp at hk
  · exact absurd rfl hv2
  · rw [hsp] at hk; simp at hk

theorem kind_closing {s s' : scanner} {c : Byte} {v : ScanCode} (hk : Kind s c v s')
    (hv : v = .scanEndObject ∨ v = .scanEndArray) : c = 125 ∨ c = 93 := by
  obtain ⟨_, hk⟩ := hk
  rcases hv with h | h <;> subst h <;> simp only [] at hk
  · exact Or.inl hk.2.2
  · exact Or.inr hk.2.2

theorem filter_space (W : List Byte) (h : allSpace W) :
    allSpace (W.filter (fun x => x ≠ 10)) := by
  intro c hc
  exact h c (List.mem_filter.mp hc).1

set_option maxHeartbeats 1000000 in
/-- One byte of the first pass, and the second pass over what the first pass
wrote for it. -/
theorem sim_step (pfx indent : List Byte) (hp : allSpace pfx) (hi : allSpace indent)
    (st1 st2 : IndentState) (c : Byte) (hl : live st1) (ht : twin st1 st2) (hc : c ≠ 10)
    (he : (indentStep pfx indent st1 c).scan.err = none) :
    ∃ k, (indentStep pfx indent st1 c).dst = st1.dst ++ k ∧
      twin (indentStep pfx indent st1 c)
        ((k.filter (fun x => x ≠ 10)).foldl (indentStep pfx indent) st2) ∧
      live (indentStep pfx indent st1 c) := by
  obtain ⟨hst, herr, hstep, hni⟩ := hl
  cases hr : ({ st1.scan with bytes := st1.scan.bytes + 1 }).stepOn c with
  | mk v s' =>
  have hscan : (indentStep pfx indent st1 c).scan = s' := by
    rw [indentStep_scan]; simp [hst, hr]
  have he' : s'.err = none := by rw [← hscan]; exact he
  have hk := kind_stepOn _ c v s' hr hstep he'
  have heq := indentStep_eq pfx indent st1 c v s' hst hr
  obtain ⟨b, t, hst2, htw⟩ := ht
  by_cases hv1 : v = .scanSkipSpace
  · subst hv1
    rw [heq]
    simp only [if_true]
    obtain ⟨hk1, hsp, hcase⟩ := hk
    refine ⟨[], by simp [withScan], ?_, ⟨hst, he', hk1, ?_⟩⟩
    · simp only [List.filter_nil, List.foldl_nil]
      rcases hcase with ⟨_, hs'⟩ | ⟨hn, hps, hs'⟩
      · refine ⟨b, t, ?_, ?_⟩
        · rw [hst2, hs']; rfl
        · rw [hs']; exact htw
      · refine ⟨b, t, ?_, ?_⟩
        · rw [hst2, hs']; rfl
        · rw [hs']
          right
          refine ⟨rfl, ?_, hps⟩
          rcases htw with h | h
          · rw [h]; exact hn
          · exact h.2.1
    · intro hneed
      have ho := hni hneed
      rcases hcase with ⟨_, hs'⟩ | ⟨hn, _, _⟩
      · rw [hs']; exact ho
      · exact absurd hn (isBegin_not_numEnd (isOrEmpty_isBegin ho))
  · by_cases hv2 : v = .scanError
    · subst hv2
      exact absurd hk.2 id
    · rw [heq]
      simp only [hv1, hv2, if_false]
      obtain ⟨pre, post, hd, hspre, hspost, hpre, hpost, hneed, hstopped, _⟩ :=
        emit_shape pfx indent v c st1 hp hi
      have hst2stop : st2.stopped = false := by rw [hst2]; exact hst
      -- the second pass over the space in front of the byte
      have stepA : ∃ b' t',
          (pre.filter (fun x => x ≠ 10)).foldl (indentStep pfx indent) st2 =
            withScan st1 { st1.scan with bytes := b', step := t' } ∧
          (t' = st1.scan.step ∨
            (isNumEnd st1.scan.step ∧ isNumEnd t' ∧ (c = 58 ∨ c = 44 ∨ c = 125 ∨ c = 93))) := by
        by_cases hpre0 : pre = []
        · subst hpre0
          refine ⟨b, t, by simpa using hst2, ?_⟩
          rcases htw with h | ⟨h1, h2, h3⟩
          · exact Or.inl h
          · exact Or.inr ⟨by rw [h1]; simp [isNumEnd], h2, kind_afterValue hk h1 h3 hv1⟩
        · have hbegin : isOrEmpty st1.scan.step →
              ∃ b' t', (pre.filter (fun x => x ≠ 10)).foldl (indentStep pfx indent) st2 =
                withScan st1 { st1.scan with bytes := b', step := t' } ∧
              (t' = st1.scan.step ∨
                (isNumEnd st1.scan.step ∧ isNumEnd t' ∧
                  (c = 58 ∨ c = 44 ∨ c = 125 ∨ c = 93))) := by
            intro ho
            have hb := isOrEmpty_isBegin ho
            have htt : t = st1.scan.step := by
              rcases htw with h | ⟨h1, _, _⟩
              · exact h
              · rw [h1] at hb; simp [isBegin] at hb
            have := run_space_begin pfx indent (pre.filter (fun x => x ≠ 10)) st2 hst2stop
              (by rw [hst2, htt]; exact hb) (filter_space pre hspre)
            exact ⟨_, t, by rw [this, hst2]; rfl, Or.inl htt⟩
          rcases hpre hpre0 with ⟨hn, _, _⟩ | ⟨hcl, hvc⟩
          · exact hbegin (hni hn)
          · obtain ⟨hcase, hps⟩ := kind_close hk hcl hvc
            rcases hcase with hn | ho
            · have htn : isNumEnd t := by
                rcases htw with h | h
                · rw [h]; exact hn
                · exact h.2.1
              obtain ⟨t', ht', hrun⟩ := run_space_numEnd pfx indent
                (pre.filter (fun x => x ≠ 10)) st2 hst2stop (by rw [hst2]; exact htn)
                (by rw [hst2]; exact hps) (filter_space pre hspre)
              exact ⟨_, t', by rw [hrun, hst2]; rfl, Or.inr ⟨hn, ht', Or.inr (Or.inr hcl)⟩⟩
            · exact hbegin ho
      obtain ⟨b', t', hrunA, htA⟩ := stepA
      -- the second pass over the byte
      have stepB : indentStep pfx indent
          (withScan st1 { st1.scan with bytes := b', step := t' }) c =
          withScan (indentStep pfx indent st1 c) { s' with bytes := b' + 1 } := by
        apply indentStep_congr pfx indent st1 c v s' _ _ hst hr
        rcases htA with h | ⟨h1, h2, h3⟩
        · subst h
          exact bytes_stepOn { st1.scan with bytes := st1.scan.bytes + 1 } (b' + 1) c v s' hr he'
        · have h4 := bytes_stepOn { st1.scan with bytes := st1.scan.bytes + 1 } (b' + 1) c v s'
            hr he'
          have h5 := numEnd_swap
            { st1.scan with bytes := b' + 1 } t' c h1 h2 (Or.inr h3)
          exact h5.trans h4
      rw [heq] at stepB
      simp only [hv1, hv2, if_false] at stepB
      refine ⟨pre ++ c :: post, by simpa [withScan] using hd, ?_, ⟨?_, he', hk.1, ?_⟩⟩
      · have hfilter : (pre ++ c :: post).filter (fun x => x ≠ 10) =
            pre.filter (fun x => x ≠ 10) ++ c :: post.filter (fun x => x ≠ 10) := by
          simp [List.filter_cons, hc]
        rw [hfilter, List.foldl_append, List.foldl_cons, hrunA, stepB, withScan_withScan]
        by_cases hpost0 : post = []
        · subst hpost0
          exact ⟨b' + 1, s'.step, rfl, Or.inl rfl⟩
        · obtain ⟨hvc, hcc⟩ := hpost hpost0
          have hb := kind_separator hk hcc hvc hv1
          have := run_space_begin pfx indent (post.filter (fun x => x ≠ 10))
            (withScan (emitByte pfx indent v c (openIndent pfx indent v st1))
              { s' with bytes := b' + 1 })
            (by simp [withScan, hstopped, hst]) hb (filter_space post hspost)
          rw [this]
          exact ⟨_, s'.step, rfl, Or.inl rfl⟩
      · simp [withScan, hstopped, hst]
      · intro hn
        rcases hneed hn with ⟨hvc, hcc⟩ | ⟨hvv, hcc⟩
        · exact kind_open hk hcc hvc hv1
        · exact absurd (kind_closing hk hvv) hcc

theorem indentStep_err (pfx indent : List Byte) (st : IndentState) (c : Byte)
    (h : (indentStep pfx indent st c).scan.err = none) : st.scan.err = none := by
  rw [indentStep_scan] at h
  split at h
  · exact h
  · obtain ⟨_, hs⟩ := stepShape_stepOn { st.scan with bytes := st.scan.bytes + 1 } c
    rcases hs with hs | ⟨e, hs, _⟩
    · rw [hs] at h; exact h
    · rw [hs] at h; simp at h

theorem foldl_err (pfx indent : List Byte) (l : List Byte) :
    ∀ (st : IndentState), (l.foldl (indentStep pfx indent) st).scan.err = none →
      st.scan.err = none := by
  induction l with
  | nil => intro st h; exact h
  | cons c l ih => intro st h; exact indentStep_err pfx indent st c (ih _ h)

/-- The second pass over the output of the first pass follows the first pass
to the end of its input. -/
theorem sim_run (pfx indent : List Byte) (hp : allSpace pfx) (hi : allSpace indent)
    (src : List Byte) :
    ∀ (st1 st2 : IndentState), live st1 → twin st1 st2 → (10 : Byte) ∉ src →
      (src.foldl (indentStep pfx indent) st1).scan.err = none →
      ∃ k, (src.foldl (indentStep pfx indent) st1).dst = st1.dst ++ k ∧
        twin (src.foldl (indentStep pfx indent) st1)
          ((k.filter (fun x => x ≠ 10)).foldl (indentStep pfx indent) st2) ∧
        live (src.foldl (indentStep pfx indent) st1) := by
  induction src with
  | nil =>
    intro st1 st2 hl ht _ _
    exact ⟨[], by simp, by simpa using ht, hl⟩
  | cons c cs ih =>
    intro st1 st2 hl ht hsrc he
    have hc : c ≠ 10 := fun h => hsrc (by simp [h])
    have hcs : (10 : Byte) ∉ cs := fun h => hsrc (by simp [h])
    rw [List.foldl_cons] at he ⊢
    obtain ⟨k1, hd1, ht1, hl1⟩ :=
      sim_step pfx indent hp hi st1 st2 c hl ht hc (foldl_err pfx indent cs _ he)
    obtain ⟨k2, hd2, ht2, hl2⟩ := ih _ _ hl1 ht1 hcs he
    refine ⟨k1 ++ k2, by rw [hd2, hd1, List.append_assoc], ?_, hl2⟩
    rw [List.filter_append, List.foldl_append]
    exact ht2

theorem eof_ok (s : scanner) (h : s.eof.1 ≠ .scanError) :
    s.err = none ∧ (s.endTop = true ∨ ((s.stepOn 32).2.endTop = true)) := by
  unfold scanner.eof at h
  split at h
  · exact absurd rfl h
  · rename_i herr
    have herr' : s.err = none := by
      cases hs : s.err with
      | none => rfl
      | some e => rw [hs] at herr; simp at herr
    split at h
    · rename_i ht; exact ⟨herr', Or.inl ht⟩
    · simp only [] at h
      split at h
      · rename_i ht; exact ⟨herr', Or.inr ht⟩
      · split at h <;> exact absurd rfl h

theorem eof_error (s : scanner) (h : s.eof.1 = .scanError) : s.eof.2.err ≠ none := by
  unfold scanner.eof at h ⊢
  simp only [] at h ⊢
  by_cases h1 : s.err.isSome = true
  · rw [if_pos h1]
    intro h'
    simp only [] at h'
    rw [h'] at h1
    simp at h1
  · rw [if_neg h1] at h ⊢
    by_cases h2 : s.endTop = true
    · rw [if_pos h2] at h; simp at h
    · rw [if_neg h2] at h ⊢
      by_cases h3 : (s.stepOn 32).2.endTop = true
      · rw [if_pos h3] at h; simp at h
      · rw [if_neg h3] at h ⊢
        by_cases h4 : (s.stepOn 32).2.err.isNone = true
        · rw [if_pos h4]; simp
        · rw [if_neg h4]
          intro h'
          simp only [] at h'
          rw [h'] at h4
          simp at h4

theorem eof_of_endTop (s : scanner) (he : s.err = none) (ht : s.endTop = true) :
    s.eof.1 = .scanEnd := by
  unfold scanner.eof
  simp [he, ht]

theorem eof_of_step (s : scanner) (he : s.err = none) (ht : (s.stepOn 32).2.endTop = true) :
    s.eof.1 = .scanEnd := by
  unfold scanner.eof
  simp only [he, Option.isSome_none, Bool.false_eq_true, if_false]
  split
  · rfl
  · simp [ht]

/-- At the end of the input only a complete top-level value lets the space
that `eof` feeds to the scanner end the document. -/
theorem space_endTop (s : scanner) (h0 : s.endTop = false)
    (h : (s.stepOn 32).2.endTop = true) : isNumEnd s.step ∧ s.parseState = [] := by
  cases hp : s.parseState with
  | nil =>
    refine ⟨?_, rfl⟩
    cases hs : s.step <;>
      simp [scanner.stepOn, hs, hp, stateBeginValueOrEmpty, stateBeginValue,
        stateBeginStringOrEmpty, stateBeginString, stateEndValue, stateEndTop, stateInString,
        stateInStringEsc, stateHex, stateNeg, state0, state1, stateDot, stateDot0, stateE,
        stateESign, stateE0, stateLit, scanner.error, isSpace, isHex, h0, isNumEnd] at h ⊢
  | cons p ps =>
    exfalso
    cases hs : s.step <;>
      simp [scanner.stepOn, hs, hp, stateBeginValueOrEmpty, stateBeginValue,
        stateBeginStringOrEmpty, stateBeginString, stateEndValue, stateEndTop, stateInString,
        stateInStringEsc, stateHex, stateNeg, state0, state1, stateDot, stateDot0, stateE,
        stateESign, stateE0, stateLit, scanner.error, isSpace, isHex, h0] at h

theorem endTop_of_numEnd (s : scanner) (hn : isNumEnd s.step) (hp : s.parseState = []) :
    (s.stepOn 32).2.endTop = true := by
  rw [numEnd_falls s 32 hn (Or.inl (by decide))]
  unfold stateEndValue
  simp [hp, stateEndTop, isSpace]

/-- The formatted output of a unit without newline bytes, with its newline
bytes deleted, is formatted to the same bytes again, when prefix and indent
consist of space, tab, carriage return and newline bytes. -/
theorem Indent_fixed_point (src pfx indent out : List Byte) (hp : allSpace pfx)
    (hi : allSpace indent) (hsrc : (10 : Byte) ∉ src)
    (h : Indent [] src pfx indent = (out, none)) :
    Indent [] (out.filter (fun x => x ≠ 10)) pfx indent = (out, none) := by
  have hinit : live { scan := scanner.reset, needIndent := false, depth := 0, dst := [], stopped := false } := by
    simp [live, scanner.reset]
  have htwin : twin { scan := scanner.reset, needIndent := false, depth := 0, dst := [], stopped := false }
      { scan := scanner.reset, needIndent := false, depth := 0, dst := [], stopped := false } := ⟨0, .stateBeginValue, rfl, Or.inl rfl⟩
  unfold Indent at h
  simp only [] at h
  split at h
  · rename_i hbad
    simp only [Prod.mk.injEq] at h
    exact absurd h.2 (eof_error _ hbad)
  · rename_i hgood
    simp only [Prod.mk.injEq, and_true] at h
    obtain ⟨herr, hend⟩ := eof_ok _ hgood
    obtain ⟨k, hk, ⟨b, t, hst2, htw⟩, hl⟩ :=
      sim_run pfx indent hp hi src _ _ hinit htwin hsrc herr
    simp only [List.nil_append] at hk
    rw [h] at hk
    subst hk
    unfold Indent
    simp only []
    rw [hst2]
    have hfin : (withScan (List.foldl (indentStep pfx indent)
        { scan := scanner.reset, needIndent := false, depth := 0, dst := [], stopped := false }
        src)
        { (List.foldl (indentStep pfx indent)
            { scan := scanner.reset, needIndent := false, depth := 0, dst := [], stopped := false } src).scan with bytes := b, step := t }).scan.eof.1 =
        .scanEnd := by
      rcases hend with hend | hend
      · exact eof_of_endTop _ herr hend
      · by_cases h0 : (List.foldl (indentStep pfx indent)
            { scan := scanner.reset, needIndent := false, depth := 0, dst := [], stopped := false } src).scan.endTop = true
        · exact eof_of_endTop _ herr h0
        · have h0' : (List.foldl (indentStep pfx indent)
              { scan := scanner.reset, needIndent := false, depth := 0, dst := [], stopped := false } src).scan.endTop = false := by
            simpa using h0
          obtain ⟨hn, hps⟩ := space_endTop _ h0' hend
          have htt : isNumEnd t := by
            rcases htw with h | h
            · rw [h]; exact hn
            · exact h.2.1
          exact eof_of_step _ herr (endTop_of_numEnd _ htt hps)
    rw [if_neg (by rw [hfin]; decide)]
    simp [withScan, h]

/-! ## Formatting a unit -/

/-- C1: the unit `{"a":1,"b":[2,3]}` with the indent of two spaces passes
`json.Indent`, `indentAndPrint` returns status 0 and appends to standard output
exactly `{\n  "a": 1,\n  "b": [\n    2,\n    3\n  ]\n}`; so does the whole
program on that input with the default indent, in single mode and in line
mode. -/
theorem C1_formats_example (lineNum : Nat) (w : World) :
    Indent [] (str "\x7b\"a\":1,\"b\":[2,3]\x7d") [] (str "  ") =
      (str "\x7b\n  \"a\": 1,\n  \"b\": [\n    2,\n    3\n  ]\n\x7d", none) ∧
    indentAndPrint [] (str "\x7b\"a\":1,\"b\":[2,3]\x7d") lineNum (str "  ") w =
      .ok (0, str "\x7b\n  \"a\": 1,\n  \"b\": [\n    2,\n    3\n  ]\n\x7d",
           { w with units := w.units ++ [(str "\x7b\"a\":1,\"b\":[2,3]\x7d", lineNum)],
                    stdout := w.stdout ++
                      str "\x7b\n  \"a\": 1,\n  \"b\": [\n    2,\n    3\n  ]\n\x7d" }) ∧
    (∀ single : Bool,
      main { Args0 := str "jsonpp", help := false, single := single, Args := [],
             JSONPP_INDENT := [], OpenFile := fun _ => .error "no such file or directory",
             Stdin := { data := str "\x7b\"a\":1,\"b\":[2,3]\x7d", readErr := none } } =
        .ok (0, { stdout := str "\x7b\n  \"a\": 1,\n  \"b\": [\n    2,\n    3\n  ]\n\x7d",
                  stderr := [], units := [(str "\x7b\"a\":1,\"b\":[2,3]\x7d", 1)],
                  opened := [] })) := by
  have h1 : Indent [] (str "\x7b\"a\":1,\"b\":[2,3]\x7d") [] (str "  ") =
      (str "\x7b\n  \"a\": 1,\n  \"b\": [\n    2,\n    3\n  ]\n\x7d", none) := by decide
  refine ⟨h1, ?_, ?_⟩
  · simp [indentAndPrint, h1]
  · intro single
    cases single <;> decide

/-! ## Formatting the formatted output again -/

/-- C2, as stated, fails.  In line mode the output for `{"a":1}` is
`{\n  "a": 1\n}`, whose first line `{\n` is rejected when the tool reads it
back (status 1, nothing written).  In single mode with the indent setting
`--` the output is `{\n--"a": 1\n}`, which is rejected as well. -/
theorem C2_second_pass_fails :
    main { Args0 := str "jsonpp", help := false, single := false, Args := [],
           JSONPP_INDENT := [], OpenFile := fun _ => .error "no such file or directory",
           Stdin := { data := str "\x7b\"a\":1\x7d", readErr := none } } =
      .ok (0, { stdout := str "\x7b\n  \"a\": 1\n\x7d", stderr := [],
                units := [(str "\x7b\"a\":1\x7d", 1)], opened := [] }) ∧
    main { Args0 := str "jsonpp", help := false, single := false, Args := [],
           JSONPP_INDENT := [], OpenFile := fun _ => .error "no such file or directory",
           Stdin := { data := str "\x7b\n  \"a\": 1\n\x7d", readErr := none } } =
      .ok (1, { stdout := [],
                stderr := diagnostic (str "\x7b\n") 1
                  { char := none, context := "unexpected end of JSON input", Offset := 2 }
                  (str "\x7b\n"),
                units := [(str "\x7b\n", 1)], opened := [] }) ∧
    main { Args0 := str "jsonpp", help := false, single := true, Args := [],
           JSONPP_INDENT := str "--", OpenFile := fun _ => .error "no such file or directory",
           Stdin := { data := str "\x7b\"a\":1\x7d", readErr := none } } =
      .ok (0, { stdout := str "\x7b\n--\"a\": 1\n\x7d", stderr := [],
                units := [(str "\x7b\"a\":1\x7d", 1)], opened := [] }) ∧
    main { Args0 := str "jsonpp", help := false, single := true, Args := [],
           JSONPP_INDENT := str "--", OpenFile := fun _ => .error "no such file or directory",
           Stdin := { data := str "\x7b\n--\"a\": 1\n\x7d", readErr := none } } =
      .ok (1, { stdout := [],
                stderr := diagnostic (str "\x7b--\"a\": 1\x7d") 1
                  { char := some 45, context := "looking for beginning of object key string",
                    Offset := 2 }
                  (str "\x7b--\"a\": 1\x7d"),
                units := [(str "\x7b--\"a\": 1\x7d", 1)], opened := [] }) := by
  decide

/-- What a successful pass in single mode wrote can be formatted again, to
the same bytes. -/
theorem single_pass (indent : List Byte) (fn : File) (w1 w : World) (hi : allSpace indent)
    (h : processSingularFile fn indent w1 = .ok (0, w)) :
    ∃ out, w.stdout = w1.stdout ++ out ∧ w.stderr = w1.stderr ∧
      Indent [] (out.filter (fun c => c ≠ 10)) [] indent = (out, none) := by
  unfold processSingularFile at h
  cases hre : fn.readErr with
  | some msg => simp [ReadAll, hre] at h
  | none =>
    simp only [ReadAll, hre, Option.map_none', ne_eq, not_true_eq_false, if_false,
      Join_Split] at h
    rcases indentAndPrint_cases [] (fn.data.filter (fun c => c ≠ 10)) 1 indent w1 with
      ⟨hok, hq⟩ | ⟨e, window, herr, hwin, hq⟩
    · simp only [ne_eq] at hq
      rw [hq] at h
      simp only [Outcome.ok.injEq, Prod.mk.injEq, true_and] at h
      refine ⟨(Indent [] (fn.data.filter (fun c => c ≠ 10)) [] indent).1, ?_, ?_, ?_⟩
      · rw [← h]
      · rw [← h]
      · exact Indent_fixed_point (fn.data.filter (fun c => c ≠ 10)) [] indent _ allSpace_nil hi
          (by simp [List.mem_filter]) (Prod.ext rfl hok)
    · simp only [ne_eq] at hq
      rw [hq] at h
      simp at h

theorem single_again (indent out : List Byte) (w2 : World)
    (h : Indent [] (out.filter (fun c => c ≠ 10)) [] indent = (out, none)) :
    processSingularFile { data := out, readErr := none } indent w2 =
      .ok (0, { w2 with units := w2.units ++ [(out.filter (fun c => c ≠ 10), 1)],
                        stdout := w2.stdout ++ out }) := by
  unfold processSingularFile
  simp only [ReadAll, Option.map_none', ne_eq, not_true_eq_false, if_false, Join_Split]
  rcases indentAndPrint_cases [] (out.filter (fun c => c ≠ 10)) 1 indent w2 with
    ⟨_, hq⟩ | ⟨e, _, herr, _, _⟩
  · rw [h] at hq
    simp only [ne_eq] at hq
    rw [hq]
  · rw [h] at herr
    simp at herr

/-- C2, amended: in single mode, with an indent setting made of space, tab,
carriage return and newline bytes only (an empty setting stands for two
spaces), when the tool formats one source (standard input or one file
argument) with status 0, running it with the same setting on that output
(given on standard input or as one file argument) gives status 0 and the same
bytes on standard output again. -/
theorem C2_single_mode_fixed_point (env1 env2 : Env) (w : World)
    (hs1 : env1.single = true) (hh1 : env1.help = false) (ha1 : env1.Args.length ≤ 1)
    (hs2 : env2.single = true) (hh2 : env2.help = false)
    (hind : env2.JSONPP_INDENT = env1.JSONPP_INDENT)
    (hi : ∀ c ∈ env1.JSONPP_INDENT, isSpace c = true)
    (hrun : main env1 = .ok (0, w))
    (hsrc : (env2.Args = [] ∧ env2.Stdin = { data := w.stdout, readErr := none }) ∨
      (∃ name, env2.Args = [name] ∧
        env2.OpenFile name = .ok { data := w.stdout, readErr := none })) :
    ∃ w', main env2 = .ok (0, w') ∧ w'.stdout = w.stdout ∧ w'.stderr = [] := by
  have hspace : allSpace (if env1.JSONPP_INDENT = [] then str "  " else env1.JSONPP_INDENT) := by
    split
    · intro c hc
      have : c = 32 := by
        simp [str] at hc
        exact hc
      subst this
      decide
    · exact hi
  -- the first pass
  have hfirst : Indent [] (w.stdout.filter (fun c => c ≠ 10)) []
      (if env1.JSONPP_INDENT = [] then str "  " else env1.JSONPP_INDENT) = (w.stdout, none) := by
    unfold main at hrun
    simp only [hh1, hs1, Bool.false_eq_true, if_false, if_true] at hrun
    cases hargs : env1.Args with
    | nil =>
      simp only [hargs, List.length_nil, gt_iff_lt, lt_self_iff_false, if_false] at hrun
      obtain ⟨out, ho, _, hfix⟩ := single_pass _ _ _ _ hspace hrun
      simp only [List.nil_append] at ho
      rw [ho]
      exact hfix
    | cons name rest =>
      have hrest : rest = [] := by
        rw [hargs] at ha1
        simp at ha1
        exact ha1
      subst hrest
      simp only [hargs, List.length_cons, List.length_nil, gt_iff_lt, Nat.lt_one_iff,
        Nat.zero_add, Nat.zero_lt_one, if_true, fileLoop] at hrun
      cases hopen : env1.OpenFile name with
      | error err =>
        simp [hopen] at hrun
      | ok fn =>
        simp only [hopen] at hrun
        cases hp : processSingularFile fn
            (if env1.JSONPP_INDENT = [] then str "  " else env1.JSONPP_INDENT)
            { stdout := [], stderr := [], units := [], opened := [] ++ [name] } with
        | fault f =>
          rw [hp] at hrun
          simp at hrun
        | ok r =>
          obtain ⟨status, w1⟩ := r
          rw [hp] at hrun
          simp only [ite_self, Outcome.ok.injEq, Prod.mk.injEq] at hrun
          obtain ⟨h0, hw⟩ := hrun
          subst h0 hw
          obtain ⟨out, ho, _, hfix⟩ := single_pass _ _ _ _ hspace hp
          simp only [List.nil_append] at ho
          rw [ho]
          exact hfix
  -- the second pass
  unfold main
  simp only [hh2, hs2, hind, Bool.false_eq_true, if_false, if_true]
  rcases hsrc with ⟨hargs, hstdin⟩ | ⟨name, hargs, hopen⟩
  · simp only [hargs, List.length_nil, gt_iff_lt, lt_self_iff_false, if_false, hstdin]
    rw [single_again _ _ _ hfirst]
    exact ⟨_, rfl, by simp, rfl⟩
  · simp only [hargs, List.length_cons, List.length_nil, gt_iff_lt, Nat.zero_add,
      Nat.zero_lt_one, if_true, fileLoop, hopen]
    rw [single_again _ _ _ hfirst]
    simp only [gt_iff_lt, lt_self_iff_false, if_false]
    exact ⟨_, rfl, by simp, rfl⟩

/-- C2 amended, at a concrete input: a nested document on standard input with
the indent setting of one tab, in single mode, and its output given back on
standard input. -/
theorem C2_single_mode_fixed_point_witness :
    main { Args0 := str "jsonpp", help := false, single := true, Args := [],
           JSONPP_INDENT := str "\t", OpenFile := fun _ => .error "no such file or directory",
           Stdin := { data := str "\x7b\"a\":[1,\x7b\"b\":null\x7d], \"c\":\"x y\"\x7d ",
                      readErr := none } } =
      .ok (0, { stdout :=
                  str "\x7b\n\t\"a\": [\n\t\t1,\n\t\t\x7b\n\t\t\t\"b\": null\n\t\t\x7d\n\t],\n\t\"c\": \"x y\"\n\x7d ",
                stderr := [],
                units := [(str "\x7b\"a\":[1,\x7b\"b\":null\x7d], \"c\":\"x y\"\x7d ", 1)],
                opened := [] }) ∧
    ∃ w', main { Args0 := str "jsonpp", help := false, single := true, Args := [],
                 JSONPP_INDENT := str "\t",
                 OpenFile := fun _ => .error "no such file or directory",
                 Stdin :=
                   { data := str "\x7b\n\t\"a\": [\n\t\t1,\n\t\t\x7b\n\t\t\t\"b\": null\n\t\t\x7d\n\t],\n\t\"c\": \"x y\"\n\x7d ",
                     readErr := none } } = .ok (0, w') ∧
      w'.stdout =
        str "\x7b\n\t\"a\": [\n\t\t1,\n\t\t\x7b\n\t\t\t\"b\": null\n\t\t\x7d\n\t],\n\t\"c\": \"x y\"\n\x7d " ∧
      w'.stderr = [] :=
  ⟨by decide,
   C2_single_mode_fixed_point
    { Args0 := str "jsonpp", help := false, single := true, Args := [],
      JSONPP_INDENT := str "\t", OpenFile := fun _ => .error "no such file or directory",
      Stdin := { data := str "\x7b\"a\":[1,\x7b\"b\":null\x7d], \"c\":\"x y\"\x7d ", readErr := none } }
    { Args0 := str "jsonpp", help := false, single := true, Args := [],
      JSONPP_INDENT := str "\t", OpenFile := fun _ => .error "no such file or directory",
      Stdin :=
        { data := str "\x7b\n\t\"a\": [\n\t\t1,\n\t\t\x7b\n\t\t\t\"b\": null\n\t\t\x7d\n\t],\n\t\"c\": \"x y\"\n\x7d ",
          readErr := none } }
    { stdout :=
        str "\x7b\n\t\"a\": [\n\t\t1,\n\t\t\x7b\n\t\t\t\"b\": null\n\t\t\x7d\n\t],\n\t\"c\": \"x y\"\n\x7d ",
      stderr := [],
      units := [(str "\x7b\"a\":[1,\x7b\"b\":null\x7d], \"c\":\"x y\"\x7d ", 1)],
      opened := [] }
    rfl rfl (by decide) rfl rfl rfl (by decide) (by decide) (Or.inl ⟨rfl, rfl⟩)⟩

end Jsonpp
